import Mathlib

/-!
Verification model of the crawl orchestration and persistence engine of
McpDocServer (src/scripts/task-manager.js).

The JavaScript source is shallowly embedded as executable Lean functions.
Strings are Lean `String`s (lists of characters); JavaScript `Map`s and
`Set`s are association lists and lists with `==`-based lookup, which is
faithful because the code only ever uses string keys.  Asynchronous code is
modelled sequentially: every `await` in the source completes before the next
statement runs, which matches the single-URL dispatch paths the claims are
about.  Wall-clock values (`Date.now()`, lock ages, debounce timers) and
file-system failures are supplied by explicit oracle parameters.
-/

namespace McpDoc

/-! ## Definitions (shallow embedding of task-manager.js) -/

structure UrlParts where
  protocol : List Char
  hostname : List Char
  pathname : List Char
  search : List Char
deriving DecidableEq, Repr

/-- A character allowed in a scheme in this restricted model (lowercase ASCII letter). -/
def schemeChar (c : Char) : Bool := 'a' ≤ c && c ≤ 'z'

/-- Authority and path splitting once the scheme and `://` have been consumed,
from `new URL`: authority runs to the first `/`, userinfo before the last `@`
is dropped, a port after `:` is dropped; the path defaults to `/`. -/
def parseAfterScheme (scheme rest : List Char) : Option UrlParts :=
  if scheme.isEmpty then none
  else if !(scheme.all schemeChar) then none
  else if ((rest.takeWhile (· != '?')).takeWhile (· != '/')).isEmpty then none
  else if (((((rest.takeWhile (· != '?')).takeWhile (· != '/')).reverse.takeWhile
      (· != '@')).reverse).takeWhile (· != ':')).isEmpty then none
  else some { protocol := scheme ++ [':'],
              hostname := (((((rest.takeWhile (· != '?')).takeWhile (· != '/')).reverse.takeWhile
                (· != '@')).reverse).takeWhile (· != ':')),
              pathname := if ((rest.takeWhile (· != '?')).dropWhile (· != '/')).isEmpty then ['/']
                else (rest.takeWhile (· != '?')).dropWhile (· != '/'),
              search := rest.dropWhile (· != '?') }

/-- A scheme-opaque URL (no `//` after the scheme), from `new URL`: the
hostname is empty and everything up to `?` is the (opaque or path-absolute)
pathname, e.g. `new URL("mailto:info@example.com")` has hostname `""` and
pathname `info@example.com`. -/
def parseOpaque (scheme rest : List Char) : Option UrlParts :=
  if scheme.isEmpty then none
  else if !(scheme.all schemeChar) then none
  else some { protocol := scheme ++ [':'],
              hostname := [],
              pathname := rest.takeWhile (· != '?'),
              search := rest.dropWhile (· != '?') }

/-- Model of `new URL(url)`: strip the fragment, read the scheme up to `:`;
after `://` split authority / path / query, otherwise (scheme-opaque URLs
such as `mailto:info@example.com`, which the real constructor also accepts)
take the remainder as the pathname with an empty hostname.  Returns `none`
where the real constructor throws. -/
def parseUrlChars (s : List Char) : Option UrlParts :=
  match (s.takeWhile (· != '#')).dropWhile (· != ':') with
  | ':' :: '/' :: '/' :: rest =>
      parseAfterScheme ((s.takeWhile (· != '#')).takeWhile (· != ':')) rest
  | ':' :: rest =>
      parseOpaque ((s.takeWhile (· != '#')).takeWhile (· != ':')) rest
  | _ => none

/-- Removal of a single trailing slash, the JS `replace(/\/$/, '')` from
`getNormalizedUrl` and `isComponentLink`. -/
def stripSlash (s : List Char) : List Char :=
  if s.getLast? = some '/' then s.dropLast else s

/-- getNormalizedUrl on character lists (task-manager.js lines 524-536):
keep protocol + hostname + pathname, drop query and fragment, strip one
trailing slash; on a parse failure return the input unchanged. -/
def getNormalizedUrlChars (s : List Char) : List Char :=
  match parseUrlChars s with
  | none => s
  | some u => stripSlash (u.protocol ++ ['/', '/'] ++ u.hostname ++ u.pathname)

/-- getNormalizedUrl (task-manager.js lines 524-536) on strings. -/
def getNormalizedUrl (s : String) : String :=
  (getNormalizedUrlChars s.data).asString

/-- A character that can occur in a parsed hostname: the parser cuts the
authority at `/`, drops userinfo at `@`, a port at `:`, and works inside the
fragment-free, query-free region. -/
def hostChar (c : Char) : Bool :=
  (c != '/') && (c != ':') && (c != '@') && (c != '#') && (c != '?')

/-- A character that can occur in a parsed pathname (fragment and query are
split off before the path). -/
def pathChar (c : Char) : Bool := (c != '#') && (c != '?')

/-- Well-formedness facts satisfied by every authority-bearing output of
`parseUrlChars` (a nonempty hostname; scheme-opaque URLs have hostname `[]`
and satisfy none of the host or path shape facts). -/
structure UrlWF (u : UrlParts) : Prop where
  scheme_ok : ∃ sch, u.protocol = sch ++ [':'] ∧ sch ≠ [] ∧ sch.all schemeChar = true
  host_ne : u.hostname ≠ []
  host_ok : u.hostname.all hostChar = true
  path_shape : ∃ p, u.pathname = '/' :: p
  path_ok : u.pathname.all pathChar = true

/-- The pathname ends in a double slash; on such paths the single-slash
stripping of `getNormalizedUrl` is not idempotent. -/
def endsTwoSlash (s : List Char) : Bool :=
  (s.getLast? == some '/') && (s.dropLast.getLast? == some '/')

/-! ### Pattern matcher (isComponentLink, task-manager.js lines 1010-1065) -/

/-- A token of the regular expression produced from a wildcard include
pattern by `pattern.replace(/\*/g, '.*').replace(/\?/g, '.')`: `*` compiles
to `.*` (match any sequence), `?` to `.` (match any character), and a literal
`.` in the pattern is itself the any-character matcher once compiled by
`new RegExp`.  Other characters are modelled as literals, which is exact for
patterns that contain no further regex metacharacters (the configured
patterns are plain path fragments). -/
inductive Tok where
  | lit (c : Char)
  | dot
  | star
deriving DecidableEq, Repr

/-- Compile a wildcard pattern string into regex tokens (lines 1040-1045). -/
def wildcardToTokens : List Char → List Tok
  | [] => []
  | c :: rest =>
    (if c = '*' then Tok.star else if c = '?' then Tok.dot
     else if c = '.' then Tok.dot else Tok.lit c) :: wildcardToTokens rest

/-- Backtracking matcher: the tokens match some prefix of the text.  The
first argument is fuel; every recursive call decreases `ts.length + s.length`,
so fuel `ts.length + s.length + 1` always suffices and the wrapper below
supplies it.  Fuel is used (rather than well-founded recursion) so that the
function reduces inside the kernel. -/
def matchHereF : Nat → List Tok → List Char → Bool
  | 0, _, _ => false
  | _ + 1, [], _ => true
  | _ + 1, Tok.lit _ :: _, [] => false
  | f + 1, Tok.lit c :: ts, d :: ds => c == d && matchHereF f ts ds
  | _ + 1, Tok.dot :: _, [] => false
  | f + 1, Tok.dot :: ts, _ :: ds => matchHereF f ts ds
  | f + 1, Tok.star :: ts, [] => matchHereF f ts []
  | f + 1, Tok.star :: ts, d :: ds => matchHereF f ts (d :: ds) || matchHereF f (Tok.star :: ts) ds

/-- The tokens match some prefix of the text. -/
def matchHere (ts : List Tok) (s : List Char) : Bool :=
  matchHereF (ts.length + s.length + 1) ts s

/-- Anchored matcher: the tokens match the text in its entirety.  This is the
matcher the spec describes ("anchored regular expression", entire-path
match); it is stated for comparison with the unanchored `regexTest` the code
actually performs. -/
def matchFullF : Nat → List Tok → List Char → Bool
  | 0, _, _ => false
  | _ + 1, [], [] => true
  | _ + 1, [], _ :: _ => false
  | _ + 1, Tok.lit _ :: _, [] => false
  | f + 1, Tok.lit c :: ts, d :: ds => c == d && matchFullF f ts ds
  | _ + 1, Tok.dot :: _, [] => false
  | f + 1, Tok.dot :: ts, _ :: ds => matchFullF f ts ds
  | f + 1, Tok.star :: ts, [] => matchFullF f ts []
  | f + 1, Tok.star :: ts, d :: ds => matchFullF f ts (d :: ds) || matchFullF f (Tok.star :: ts) ds

/-- The tokens match the text in its entirety (spec-side anchored matching). -/
def matchFull (ts : List Tok) (s : List Char) : Bool :=
  matchFullF (ts.length + s.length + 1) ts s

/-- Model of `new RegExp(pattern).test(s)` (line 1048-1049): an UNANCHORED
search, true iff the tokens match starting at some position of `s`. -/
def regexTest (ts : List Tok) : List Char → Bool
  | [] => matchHere ts []
  | d :: ds => matchHere ts (d :: ds) || regexTest ts ds

/-! ### Task groups and crawl state (task-manager.js) -/

/-- PageRecord: the `{title, content}` object produced by processUrl and
stored in `taskGroup.pages` / the document store. -/
structure PageRecord where
  title : String
  content : String
deriving DecidableEq, Repr

/-- Lookup in a JS `Map` with string keys, modelled as an association list
in insertion order. -/
def assocGet {α : Type} (ps : List (String × α)) (k : String) : Option α :=
  (ps.find? (fun kv => kv.1 == k)).map (·.2)

/-- `Map.has`. -/
def assocHas {α : Type} (ps : List (String × α)) (k : String) : Bool :=
  (assocGet ps k).isSome

/-- `Map.set`: overwrite in place if the key exists, otherwise append
(JS Maps preserve insertion order). -/
def assocSet {α : Type} (ps : List (String × α)) (k : String) (v : α) : List (String × α) :=
  if assocHas ps k then ps.map (fun kv => if kv.1 == k then (k, v) else kv)
  else ps ++ [(k, v)]

/-- A task group (addSource, lines 962-969).  `excludePatterns` are arbitrary
configured JS RegExps, modelled as opaque Bool-valued functions on the
stripped path; `includePatterns` are wildcard strings. -/
structure TaskGroup where
  name : String
  url : String
  pages : List (String × PageRecord)
  status : String
  includePatterns : List String
  excludePatterns : List (List Char → Bool)

/-- Loop inside getTaskGroupByUrl (lines 997-1002): first task group whose
base-url hostname equals the given hostname; `new URL(taskGroup.url)`
throwing makes the whole function return null, modelled by `none`. -/
def findGroupByHost (host : List Char) : List TaskGroup → Option TaskGroup
  | [] => none
  | g :: rest =>
    match parseUrlChars g.url.data with
    | none => none
    | some b => if b.hostname == host then some g else findGroupByHost host rest

/-- getTaskGroupByUrl (lines 993-1008). -/
def getTaskGroupByUrl (groups : List TaskGroup) (url : String) : Option TaskGroup :=
  match parseUrlChars url.data with
  | none => none
  | some u => findGroupByHost u.hostname groups

/-- isComponentLink (lines 1015-1065): parse the url (throw ⇒ false), strip
fragment and one trailing slash from the pathname, resolve the owning task
group by hostname (none ⇒ false); if any exclude RegExp tests true on the
path ⇒ false; else if include patterns are present, at least one compiled
wildcard pattern must `test` (unanchored) the path; else true. -/
def isComponentLink (groups : List TaskGroup) (url : String) : Bool :=
  match parseUrlChars url.data with
  | none => false
  | some u =>
    match findGroupByHost u.hostname groups with
    | none => false
    | some g =>
      if !g.excludePatterns.isEmpty &&
          g.excludePatterns.any (fun p => p (stripSlash (u.pathname.takeWhile (· != '#')))) then
        false
      else if !g.includePatterns.isEmpty then
        g.includePatterns.any (fun pat =>
          regexTest (wildcardToTokens pat.data) (stripSlash (u.pathname.takeWhile (· != '#'))))
      else true

/-! ### Persistence pipeline: merge, similarity and serialization
(_performActualSave, task-manager.js lines 166-481) -/

/-- A JSON-ish runtime value held in a store's page field.  Pages freshly
produced by processUrl always carry strings; values read back from a legacy
`export default` store file through the Function-constructor parse path
(lines 243-260) can be arbitrary JS values — `jbig` models a BigInt, the
value class on which `JSON.stringify` throws. -/
inductive JVal where
  | jstr (s : String)
  | jbig (n : Int)
deriving DecidableEq, Repr

/-- A page object of the existing store: `{title, content}` with runtime
values. -/
structure JPage where
  title : JVal
  content : JVal
deriving DecidableEq, Repr

/-- A pending page as buffered by savePage from processUrl: always two
strings. -/
structure PageS where
  title : String
  content : String
deriving DecidableEq, Repr

/-- JS truthiness of a stored value (the empty string and 0n are falsy). -/
def jTruthy : JVal → Bool
  | .jstr s => !(s == "")
  | .jbig n => !(n == 0)

/-- `JSON.stringify` fails on the page iff a field holds a BigInt. -/
def pageHasBig (p : JPage) : Bool :=
  (match p.title with | .jbig _ => true | _ => false) ||
  (match p.content with | .jbig _ => true | _ => false)

/-- One global single-character replacement `s.replace(/c/g, r)`. -/
def replaceAllChar (c : Char) (r : List Char) (s : List Char) : List Char :=
  (s.map (fun d => if d = c then r else [d])).flatten

/-- The string branch of ensureSafeJsonData (lines 492-500): escape
backslash first, then double quote, newline, carriage return, tab and form
feed, each by a global single-character replace that prefixes a backslash. -/
def ensureSafeJsonString (s : String) : String :=
  ⟨replaceAllChar '\x0C' ['\\', 'f']
    (replaceAllChar '\t' ['\\', 't']
      (replaceAllChar '\r' ['\\', 'r']
        (replaceAllChar '\n' ['\\', 'n']
          (replaceAllChar '"' ['\\', '"']
            (replaceAllChar '\\' ['\\', '\\'] s.data)))))⟩

/-- ensureSafeJsonData (lines 488-517) on a primitive value: strings are
escaped, other primitives are returned unchanged. -/
def ensureSafeJsonData : JVal → JVal
  | .jstr s => .jstr (ensureSafeJsonString s)
  | v => v

/-- ensureSafeJsonData on a page object: recurse into both fields. -/
def ensureSafeJsonPage (p : JPage) : JPage :=
  { title := ensureSafeJsonData p.title, content := ensureSafeJsonData p.content }

/-- A character unaffected by ensureSafeJsonData's escaping. -/
def escFree (c : Char) : Bool :=
  (c != '\\') && (c != '"') && (c != '\n') && (c != '\r') && (c != '\t') && (c != '\x0C')

/-- `s.split(c)` for a single-character separator, with JS semantics:
adjacent, leading and trailing separators produce empty segments. -/
def splitOnChar (c : Char) : List Char → List Char → List (List Char)
  | [], acc => [acc.reverse]
  | d :: rest, acc =>
    if d == c then acc.reverse :: splitOnChar c rest []
    else splitOnChar c rest (d :: acc)

/-- `url.split('/').pop() || dflt` (lines 369 fallback, 802, 881): the last
'/'-separated segment, or the default when that segment is empty. -/
def popOr (s dflt : String) : String :=
  match (splitOnChar '/' s.data []).getLast? with
  | some x => if x.isEmpty then dflt else ⟨x⟩
  | none => dflt

/-- `content.split(/\s+/)` (lines 324-325) up to empty segments: splitting on
each whitespace character yields the same significant (length > 3) words as
splitting on runs.  JS `\s` also covers `\f`, `\v` and Unicode spaces;
`Char.isWhitespace` covers the ASCII subset, which coincides on the content
this code compares. -/
def wordsAux : List Char → List Char → List (List Char)
  | [], acc => [acc.reverse]
  | c :: rest, acc =>
    if c.isWhitespace then acc.reverse :: wordsAux rest []
    else wordsAux rest (c :: acc)

/-- The significant words of a content string: whitespace-separated tokens
longer than 3 characters (lines 324-325). -/
def significantWords (s : String) : List (List Char) :=
  (wordsAux s.data []).filter (fun w => decide (w.length > 3))

/-- isSimilarContent (lines 317-336) lifted to runtime values.  The source
calls `.split` on the contents, which throws a TypeError when a content is a
truthy non-string (possible for values read from a legacy store); `.error ()`
models that exception, which the caller's try/catch turns into the
minimal-data fallback.  The floating comparisons `|w1-w2| > w1*0.3` and
`common > w2*0.7` are modelled by exact rational arithmetic scaled by 10. -/
def isSimilarContent (c1 c2 : JVal) : Except Unit Bool :=
  if !(jTruthy c1) || !(jTruthy c2) then .ok false
  else if c1 == c2 then .ok true
  else match c1, c2 with
    | .jstr s1, .jstr s2 =>
      if 10 * ((significantWords s1).length - ((significantWords s2).length : Int)).natAbs
          > 3 * (significantWords s1).length then .ok false
      else .ok (decide (10 * ((significantWords s2).filter
        (fun w => (significantWords s1).contains w)).length > 7 * (significantWords s2).length))
    | _, _ => .error ()

/-- findSimilarPage (lines 339-351): scan the existing pages in insertion
order, skip the entry under the same key, require strictly equal titles
(which short-circuits before the content check) and similar content;
propagate the TypeError of isSimilarContent. -/
def findSimilarPage (url : String) (title content : JVal) :
    List (String × JPage) → Except Unit (Option String)
  | [] => .ok none
  | (k, q) :: rest =>
    if k == url then findSimilarPage url title content rest
    else if title == q.title then
      match isSimilarContent content q.content with
      | .error e => .error e
      | .ok true => .ok (some k)
      | .ok false => findSimilarPage url title content rest
    else findSimilarPage url title content rest

/-- Merge of one pending page into the accumulated pages (loop body, lines
353-391).  On similarity the page is skipped; otherwise the escaped data
(with '无标题' defaulting an empty title, and `content || ''` which is the
identity on strings) overwrites the key.  If the similarity scan threw (an
equal title over legacy non-string content), the catch at lines 376-388
stores minimal data built from the raw page; the engine's TypeError message
interpolated there is not modelled beyond a placeholder. -/
def mergeStep (pages : List (String × JPage)) (url : String) (pd : PageS) :
    List (String × JPage) × Bool :=
  match findSimilarPage url (.jstr (ensureSafeJsonString pd.title))
      (.jstr (ensureSafeJsonString pd.content)) pages with
  | .ok (some _) => (pages, false)
  | .ok none =>
    (assocSet pages url
      { title := .jstr (if ensureSafeJsonString pd.title == "" then "无标题"
          else ensureSafeJsonString pd.title),
        content := .jstr (ensureSafeJsonString pd.content) }, true)
  | .error _ =>
    (assocSet pages url
      { title := .jstr (if !(pd.title == "") then pd.title else "页面 " ++ popOr url "无标题"),
        content := .jstr (if !(pd.content == "") then pd.content
          else "加载此页面时出错: TypeError") }, true)

/-- The merge loop over all pending URLs (lines 353-391), returning the final
pages map and the updateCount. -/
def mergePending (pages0 : List (String × JPage)) (pend : List (String × PageS)) :
    List (String × JPage) × Nat :=
  pend.foldl (fun acc kv =>
    ((mergeStep acc.1 kv.1 kv.2).1,
      acc.2 + (if (mergeStep acc.1 kv.1 kv.2).2 then 1 else 0))) (pages0, 0)

/-- The outcome of one flush: either the write is skipped entirely
(updateCount = 0, lines 393-397) or a store whose pages map is given is
written. -/
inductive SaveWriteResult where
  | skipped
  | written (pages : List (String × JPage))
deriving DecidableEq, Repr

/-- Serialization (lines 402-440): the full `JSON.stringify` succeeds iff no
page value holds a BigInt; otherwise the fallback keeps only the
individually serializable pages and stores
`JSON.parse(JSON.stringify(ensureSafeJsonData(pageData)))`, i.e. the page
with ensureSafeJsonData applied once more.  The last-resort empty store
(lines 431-438) is unreachable here because the filtered retry always
serializes. -/
def serializeOutcome (merged : List (String × JPage)) : List (String × JPage) :=
  if merged.all (fun kv => !(pageHasBig kv.2)) then merged
  else merged.filterMap (fun kv =>
    if !(pageHasBig kv.2) then some (kv.1, ensureSafeJsonPage kv.2) else none)

/-- The merge-and-serialize core of _performActualSave (lines 353-461) for a
parsed existing pages map and the buffered pending pages: merge, skip the
write when no page changed anything, otherwise write the serialized pages. -/
def flushMerge (existingPages : List (String × JPage)) (pend : List (String × PageS)) :
    SaveWriteResult :=
  if (mergePending existingPages pend).2 == 0 then .skipped
  else .written (serializeOutcome (mergePending existingPages pend).1)

/-! ### Crawl state: processUrl and the queue dispatch
(task-manager.js lines 558-951) -/

/-- PendingEntry (lines 836-842, 974-979).  `lastRetry` is a wall-clock Date
in the source, modelled as an opaque marker. -/
structure PendingEntry where
  url : String
  status : String
  retryCount : Nat
  lastRetry : Option Unit
  error : Option String
deriving DecidableEq, Repr

/-- The TaskManager state touched by processUrl / processUrlQueue: the task
groups (`this.tasks`, a Map keyed by source name), the shared
`processingUrls` set and `pendingUrls` map, the active page counter, and a
log of savePage calls.  savePage's own file behaviour is modelled separately
(flushMerge, performActualSave, savePage); in the crawl model each call is
recorded as (sourceName, normalizedUrl, record). -/
structure CrawlSt where
  groups : List TaskGroup
  processingUrls : List String
  pendingUrls : List (String × PendingEntry)
  activePages : Nat
  saveLog : List (String × String × PageRecord)

/-- `this.tasks.get(name)`; Map keys are unique, so the groups list carries
pairwise distinct names. -/
def findGroup (groups : List TaskGroup) (nm : String) : Option TaskGroup :=
  groups.find? (fun g => g.name == nm)

/-- The mutation `taskGroup.pages.set(normalizedUrl, rec)` on the group
named nm. -/
def setGroupPage (nm k : String) (v : PageRecord) (st : CrawlSt) : CrawlSt :=
  { st with groups := st.groups.map (fun g =>
      if g.name == nm then { g with pages := assocSet g.pages k v } else g) }

/-- `this.processingUrls.add(n); this.activePages++` (lines 574-575). -/
def addProcessing (n : String) (st : CrawlSt) : CrawlSt :=
  { st with processingUrls := n :: st.processingUrls, activePages := st.activePages + 1 }

/-- The per-iteration finally (lines 904-905). -/
def removeProcessing (n : String) (st : CrawlSt) : CrawlSt :=
  { st with processingUrls := st.processingUrls.erase n, activePages := st.activePages - 1 }

/-- Lines 860-865: mark the pending entry under the normalized url failed. -/
def markFailed (n msg : String) (st : CrawlSt) : CrawlSt :=
  { st with pendingUrls := st.pendingUrls.map (fun kv =>
      if kv.1 == n then
        (kv.1, { kv.2 with
          status := "failed",
          error := some msg,
          lastRetry := some () })
      else kv) }

/-- What the browser/render pipeline produces for one attempt: the extracted
page data with the discovered same-page links, or a thrown error message.
The attempt-indexed oracle stands for the external Renderer. -/
inductive RenderOutcome where
  | ok (rec : PageRecord) (links : List String)
  | fail (msg : String)

/-- Lines 800-804: default title/content fill-ins before saving. -/
def successRecord (n : String) (rec : PageRecord) : PageRecord :=
  { title := if rec.title == "" then "页面 " ++ popOr n "无标题" else rec.title,
    content := if rec.content == "" then "页面无内容" else rec.content }

/-- Lines 880-883: the synthetic error page saved after retries are
exhausted — note the title interpolates `url.split('/').pop() || url`, the
LAST PATH SEGMENT of the url (or the whole url when that segment is empty),
not the whole url. -/
def errorPage (url msg : String) : PageRecord :=
  { title := "爬取失败: " ++ popOr url url,
    content := "处理此页面时发生错误: " ++ msg }

/-- Lines 719-728: keep only links whose hostname equals the task-group
base-url's hostname.  (When the group url itself fails to parse the source
throws out of the attempt; the claims only concern parseable group urls, and
the model's `none` branch then discards every link.) -/
def sameDomainLinks (gUrl : String) (links : List String) : List String :=
  match parseUrlChars gUrl.data with
  | none => []
  | some b => links.filter (fun l =>
      match parseUrlChars l.data with
      | some t => t.hostname == b.hostname
      | none => false)

/-- Lines 814-846: feed one discovered link into pendingUrls: normalize,
require isComponentLink, re-check the owning group's exclude patterns, and
insert a fresh pending entry unless the normalized link is processing,
already in the owner's pages, or already pending.  (The `none` owner branch
is unreachable when isComponentLink returned true.) -/
def enqueueStep (groups : List TaskGroup) (processing : List String)
    (pend : List (String × PendingEntry)) (link : String) : List (String × PendingEntry) :=
  if isComponentLink groups (getNormalizedUrl link) then
    match parseUrlChars (getNormalizedUrl link).data with
    | none => pend
    | some u =>
      match findGroupByHost u.hostname groups with
      | none => pend
      | some g2 =>
        if !g2.excludePatterns.isEmpty && g2.excludePatterns.any
            (fun p => p (stripSlash (u.pathname.takeWhile (· != '#')))) then pend
        else if !(processing.contains (getNormalizedUrl link))
            && !(assocHas g2.pages (getNormalizedUrl link)) then
          if !(assocHas pend (getNormalizedUrl link)) then
            pend ++ [(getNormalizedUrl link,
              ⟨getNormalizedUrl link, "pending", 0, none, none⟩)]
          else pend
        else pend
  else pend

/-- One iteration of the retry while-loop of processUrl (lines 572-908) and
its continuation.  `attempt` is `retryCount` at loop entry; the first (fuel)
argument makes the bounded loop (`while retryCount < maxRetries`,
maxRetries = 3) structurally recursive — processUrl supplies fuel 3, so fuel
never runs out before the retry bound does. -/
def processLoop (render : Nat → RenderOutcome) (url n nm gUrl : String) :
    Nat → Nat → CrawlSt → CrawlSt
  | 0, _, st => st
  | fuel + 1, attempt, st =>
    match render attempt with
    | .ok rec links =>
      let st2 := { (setGroupPage nm n (successRecord n rec) (addProcessing n st)) with
        saveLog := st.saveLog ++ [(nm, n, successRecord n rec)] }
      removeProcessing n { st2 with pendingUrls :=
        ((sameDomainLinks gUrl links).foldl (enqueueStep st2.groups st2.processingUrls)
          st2.pendingUrls) }
    | .fail msg =>
      let stF := markFailed n msg (addProcessing n st)
      if attempt + 1 < 3 then
        processLoop render url n nm gUrl fuel (attempt + 1) (removeProcessing n stF)
      else
        removeProcessing n { (setGroupPage nm n (errorPage url msg) stF) with
          saveLog := stF.saveLog ++ [(nm, n, errorPage url msg)] }

/-- processUrl (lines 558-909) against the task group named nm, with the
render oracle giving each attempt's outcome: normalize the url, skip if it is
already processing or already in this group's pages (line 563), else run the
retry loop. -/
def processUrl (render : Nat → RenderOutcome) (url nm : String) (st : CrawlSt) : CrawlSt :=
  match findGroup st.groups nm with
  | none => st
  | some g =>
    if st.processingUrls.contains (getNormalizedUrl url)
        || assocHas g.pages (getNormalizedUrl url) then st
    else processLoop render url (getNormalizedUrl url) nm g.url 3 0 st

/-- The dispatch of one claimed pending URL inside processUrlQueue (lines
933-941): `this.pendingUrls.delete(url)`, then
`for (const [name, taskGroup] of this.tasks) await this.processUrl(url,
taskGroup)` — processUrl runs once per registered task group. -/
def processUrlQueueStep (render : Nat → RenderOutcome) (url : String) (st : CrawlSt) : CrawlSt :=
  (st.groups.map (fun g => g.name)).foldl (fun s nm => processUrl render url nm s)
    { st with pendingUrls := st.pendingUrls.filter (fun kv => !(kv.1 == url)) }

/-- `taskGroup.pages.get(k)` of the group named nm. -/
def groupPage (st : CrawlSt) (nm k : String) : Option PageRecord :=
  match findGroup st.groups nm with
  | none => none
  | some g => assocGet g.pages k

/-! ### File-system model of _performActualSave (lines 166-481) and
savePage (lines 47-159) -/

/-- Symbolic file contents: a store file holds a parsed document store,
anything else (the lock file's timestamp, a legacy `export default` module,
a backup) is raw text. -/
inductive FileData where
  | text (s : String)
  | store (srcName srcUrl : String) (pages : List (String × JPage))
deriving DecidableEq, Repr

/-- `Map.delete` / `fs.unlink` on an association list. -/
def assocRemove {α : Type} (ps : List (String × α)) (k : String) : List (String × α) :=
  ps.filter (fun kv => !(kv.1 == k))

/-- The file system: a map from paths to contents. -/
structure FsState where
  files : List (String × FileData)
deriving DecidableEq, Repr

def fsHas (st : FsState) (p : String) : Bool := assocHas st.files p

def fsWrite (p : String) (d : FileData) (st : FsState) : FsState :=
  ⟨assocSet st.files p d⟩

/-- `fs.unlink(p).catch(...)`: afterwards the path is absent; the only
benign failure mode (ENOENT) leaves it absent too, and the source swallows
unlink errors, so unlink is modelled as total. -/
def fsRemove (p : String) (st : FsState) : FsState :=
  ⟨assocRemove st.files p⟩

/-- The failure oracle for one _performActualSave run: which file-system
steps fail, the observed age of a pre-existing lock, and what the legacy
(Function-constructor) parse of a non-JSON store file yields (lines 243-304;
`none` means all parses failed and an empty store is used).  Timestamps
(`lastUpdated`, backup-file name suffixes) are not modelled. -/
structure SaveEnv where
  statFails : Bool
  lockAgeMs : Nat
  staleLockWriteFails : Bool
  lockWriteFails : Bool
  readFails : Bool
  legacyParsed : Option (List (String × JPage))
  copyBakFails : Bool
  tmpWriteFails : Bool
  renameFails : Bool
deriving DecidableEq, Repr

/-- Lock acquisition (lines 170-200): create the lock with wx semantics; on
EEXIST stat it — stat failure or a fresh (≤ 30s) lock makes the attempt
throw (after a wait, not modelled); a stale lock is unlinked and rewritten.
Returns the file system and whether the lock was acquired (false = the
attempt threw out of the lock step). -/
def saveAcquire (env : SaveEnv) (lockFile : String) (st : FsState) : FsState × Bool :=
  if fsHas st lockFile then
    if env.statFails then (st, false)
    else if env.lockAgeMs > 30000 then
      if env.staleLockWriteFails then (fsRemove lockFile st, false)
      else (fsWrite lockFile (.text "ts") (fsRemove lockFile st), true)
    else (st, false)
  else
    if env.lockWriteFails then (st, false)
    else (fsWrite lockFile (.text "ts") st, true)

/-- The try-body of _performActualSave after the lock is held (lines
202-473): empty pending set returns early; otherwise read and parse the
existing store (read failures and unparseable files degrade to an empty
pages map), merge and serialize via flushMerge, and on a write: copy the
current file to `.bak` (failure swallowed), write the `.new` temp file,
rename it over the target, delete the `.bak`.  Returns the file system and
whether the body completed without throwing. -/
def saveBody (env : SaveEnv) (sourceName srcUrl outputPath : String)
    (pend : List (String × PageS)) (st : FsState) : FsState × Bool :=
  if pend.isEmpty then (st, true)
  else
    match flushMerge
      (if env.readFails then []
       else match assocGet st.files outputPath with
         | some (.store _ _ pages) => pages
         | some (.text _) =>
           match env.legacyParsed with
           | some pages => pages
           | none => []
         | none => []) pend with
    | .skipped => (st, true)
    | .written pagesOut =>
      if env.tmpWriteFails then
        (if fsHas st outputPath && !env.copyBakFails then
          fsWrite (outputPath ++ ".bak") ((assocGet st.files outputPath).getD (.text "")) st
         else st, false)
      else
        if env.renameFails then
          (fsWrite (outputPath ++ ".new") (.store sourceName srcUrl pagesOut)
            (if fsHas st outputPath && !env.copyBakFails then
              fsWrite (outputPath ++ ".bak") ((assocGet st.files outputPath).getD (.text "")) st
             else st), false)
        else
          (fsRemove (outputPath ++ ".bak")
            (fsWrite outputPath (.store sourceName srcUrl pagesOut)
              (fsRemove (outputPath ++ ".new")
                (fsWrite (outputPath ++ ".new") (.store sourceName srcUrl pagesOut)
                  (if fsHas st outputPath && !env.copyBakFails then
                    fsWrite (outputPath ++ ".bak")
                      ((assocGet st.files outputPath).getD (.text "")) st
                   else st)))), true)

/-- The lock-acquire + try-body of _performActualSave; false means some step
threw (and was caught and logged at line 474). -/
def performActualSaveCore (env : SaveEnv) (sourceName srcUrl outputPath : String)
    (pend : List (String × PageS)) (st : FsState) : FsState × Bool :=
  match saveAcquire env (outputPath ++ ".lock") st with
  | (st1, false) => (st1, false)
  | (st1, true) => saveBody env sourceName srcUrl outputPath pend st1

/-- _performActualSave (lines 166-481): the core under try/catch, then the
finally at line 479 unlinks the lock file unconditionally — on success, on
every failure path, and even when the (fresh) lock belonged to another
writer. -/
def performActualSave (env : SaveEnv) (sourceName srcUrl outputPath : String)
    (pend : List (String × PageS)) (st : FsState) : FsState × Bool :=
  (fsRemove (outputPath ++ ".lock")
    (performActualSaveCore env sourceName srcUrl outputPath pend st).1,
   (performActualSaveCore env sourceName srcUrl outputPath pend st).2)

/-- Outcome of one _performActualSave attempt inside savePage. -/
inductive TryResult where
  | ok
  | err
deriving DecidableEq, Repr

/-- The failure oracle for savePage's debounced flush: the scheduled flush,
its single retry, and the emergency timestamped backup write.  This
over-approximates the real _performActualSave, which never rejects (its own
errors are caught at line 474), so savePage's retry/backup handlers are
exercised here even though they are dead code against the real callee. -/
structure SavePageEnv where
  firstSave : TryResult
  retrySave : TryResult
  backupWrite : TryResult
deriving DecidableEq, Repr

/-- Which resolve path the savePage promise took. -/
inductive SavePath where
  | invalidSource
  | attached
  | savedFirst
  | savedRetry
  | backupSaved
  | backupFailed
deriving DecidableEq, Repr

/-- savePage (lines 47-159) as the resolution behaviour of the promise it
returns.  An empty sourceName returns early (resolving); a mkdir failure is
swallowed by `.catch(() => {})`; when a flush is already scheduled for the
source the call is absorbed and returns that scheduled promise (line 87);
otherwise the debounced flush runs: on failure it is retried once (line
104), on a second failure an emergency backup is attempted (line 139), and
`resolve()` is reached on every one of those paths (lines 95, 106, 145).
`Except.error` would model a rejected promise; no path produces one. -/
def savePage (env : SavePageEnv) (sourceName : String) (alreadyScheduled : Bool) :
    Except String SavePath :=
  if sourceName == "" then .ok .invalidSource
  else if alreadyScheduled then .ok .attached
  else match env.firstSave with
    | .ok => .ok .savedFirst
    | .err => match env.retrySave with
      | .ok => .ok .savedRetry
      | .err => match env.backupWrite with
        | .ok => .ok .backupSaved
        | .err => .ok .backupFailed

/-- A promise modelled as Except resolves iff the computation did not end in
`Except.error`. -/
def promiseResolves {ε α : Type} : Except ε α → Bool
  | .ok _ => true
  | .error _ => false

/-! ## Theorems -/

theorem all_takeWhile (p : Char → Bool) : ∀ (s : List Char), (s.takeWhile p).all p = true := by
  intro s
  induction s with
  | nil => rfl
  | cons c t ih =>
    cases h : p c with
    | true => simp [List.takeWhile, h, ih]
    | false => simp [List.takeWhile, h]

theorem takeWhile_of_all {p : Char → Bool} : ∀ {s : List Char}, s.all p = true → s.takeWhile p = s := by
  intro s
  induction s with
  | nil => intro _; rfl
  | cons c t ih =>
    intro h
    simp only [List.all_cons, Bool.and_eq_true] at h
    simp [List.takeWhile, h.1, ih h.2]

theorem dropWhile_of_all {p : Char → Bool} : ∀ {s : List Char}, s.all p = true → s.dropWhile p = [] := by
  intro s
  induction s with
  | nil => intro _; rfl
  | cons c t ih =>
    intro h
    simp only [List.all_cons, Bool.and_eq_true] at h
    simp [List.dropWhile, h.1, ih h.2]

theorem takeWhile_append_of_all {p : Char → Bool} :
    ∀ {a : List Char} (b : List Char), a.all p = true → (a ++ b).takeWhile p = a ++ b.takeWhile p := by
  intro a
  induction a with
  | nil => intro b _; rfl
  | cons c t ih =>
    intro b h
    simp only [List.all_cons, Bool.and_eq_true] at h
    simp [List.takeWhile, h.1, ih b h.2]

theorem dropWhile_append_of_all {p : Char → Bool} :
    ∀ {a : List Char} (b : List Char), a.all p = true → (a ++ b).dropWhile p = b.dropWhile p := by
  intro a
  induction a with
  | nil => intro b _; rfl
  | cons c t ih =>
    intro b h
    simp only [List.all_cons, Bool.and_eq_true] at h
    simp [List.dropWhile, h.1, ih b h.2]

theorem all_of_sublist {p : Char → Bool} {s t : List Char} (hsub : s.Sublist t)
    (h : t.all p = true) : s.all p = true := by
  simp only [List.all_eq_true] at h ⊢
  exact fun a ha => h a (hsub.mem ha)

theorem all_takeWhile_of_all {p q : Char → Bool} {s : List Char} (h : s.all p = true) :
    (s.takeWhile q).all p = true :=
  all_of_sublist (List.takeWhile_sublist q) h

theorem all_dropWhile_of_all {p q : Char → Bool} {s : List Char} (h : s.all p = true) :
    (s.dropWhile q).all p = true :=
  all_of_sublist (List.dropWhile_sublist q) h

theorem all_reverse_of_all {p : Char → Bool} {s : List Char} (h : s.all p = true) :
    s.reverse.all p = true := by
  simp only [List.all_eq_true] at h ⊢
  exact fun a ha => h a (List.mem_reverse.mp ha)

theorem dropWhile_shape (p : Char → Bool) :
    ∀ (s : List Char), s.dropWhile p = [] ∨ ∃ c t, s.dropWhile p = c :: t ∧ p c = false := by
  intro s
  induction s with
  | nil => exact Or.inl rfl
  | cons c t ih =>
    cases h : p c with
    | true => simpa [List.dropWhile, h] using ih
    | false => exact Or.inr ⟨c, t, by simp [List.dropWhile, h], h⟩

theorem asString_data (l : List Char) : (l.asString).data = l := rfl

theorem all_mono {p q : Char → Bool} (himp : ∀ c, p c = true → q c = true)
    {s : List Char} (h : s.all p = true) : s.all q = true := by
  simp only [List.all_eq_true] at h ⊢
  exact fun a ha => himp a (h a ha)

theorem schemeChar_spec {c : Char} (h : schemeChar c = true) :
    (c != '#') = true ∧ (c != ':') = true ∧ (c != '?') = true ∧ (c != '/') = true := by
  refine ⟨?_, ?_, ?_, ?_⟩ <;> · rw [bne_iff_ne]; rintro rfl; revert h; decide

theorem hostChar_spec {c : Char} (h : hostChar c = true) :
    (c != '/') = true ∧ (c != ':') = true ∧ (c != '@') = true ∧ (c != '#') = true ∧
      (c != '?') = true := by
  simpa [hostChar, Bool.and_eq_true, and_assoc] using h

theorem pathChar_spec {c : Char} (h : pathChar c = true) :
    (c != '#') = true ∧ (c != '?') = true := by
  simpa [pathChar, Bool.and_eq_true] using h

theorem stripSlash_append (a : List Char) {b : List Char} (hb : b ≠ []) :
    stripSlash (a ++ b) = a ++ stripSlash b := by
  have hie : b.isEmpty = false := List.isEmpty_eq_false.mpr hb
  unfold stripSlash
  rw [List.getLast?_append]
  cases hbl : b.getLast? with
  | none => exact absurd (by simpa using hbl) hb
  | some c =>
    by_cases hc : c = '/'
    · subst hc
      have h1 : (some '/').or a.getLast? = some '/' := rfl
      rw [if_pos h1, if_pos rfl, List.dropLast_append, hie]
      simp
    · have hr : ¬ ((some c).or (a.getLast?) = some '/') := by simp [Option.or, hc]
      rw [if_neg hr, if_neg (by simp [hc])]

theorem stripSlash_sublist (s : List Char) : (stripSlash s).Sublist s := by
  unfold stripSlash
  split
  · exact List.dropLast_sublist s
  · exact List.Sublist.refl s

theorem stripSlash_shape (p : List Char) :
    stripSlash ('/' :: p) = [] ∨ ∃ r, stripSlash ('/' :: p) = '/' :: r := by
  unfold stripSlash
  by_cases h : ('/' :: p).getLast? = some '/'
  · rw [if_pos h]
    cases p with
    | nil => exact Or.inl rfl
    | cons d t =>
      exact Or.inr ⟨(d :: t).dropLast, by rw [List.dropLast_cons_of_ne_nil (by simp)]⟩
  · rw [if_neg h]
    exact Or.inr ⟨p, rfl⟩

theorem stripSlash_stripSlash {s : List Char} (h : endsTwoSlash s = false) :
    stripSlash (stripSlash s) = stripSlash s := by
  by_cases h1 : s.getLast? = some '/'
  · have h2 : ¬ s.dropLast.getLast? = some '/' := by
      intro he
      simp [endsTwoSlash, h1, he] at h
    simp [stripSlash, h1, h2]
  · simp [stripSlash, h1]

theorem hostname_all {rest : List Char} (hrest : rest.all (· != '#') = true) :
    ((((((rest.takeWhile (· != '?')).takeWhile (· != '/')).reverse.takeWhile
      (· != '@')).reverse).takeWhile (· != ':'))).all hostChar = true := by
  have hbq : (rest.takeWhile (· != '?')).all (· != '?') = true := all_takeWhile _ rest
  have hbq_hash : (rest.takeWhile (· != '?')).all (· != '#') = true :=
    all_takeWhile_of_all hrest
  have hauth_slash : ((rest.takeWhile (· != '?')).takeWhile (· != '/')).all (· != '/') = true :=
    all_takeWhile _ _
  have hauth_q : ((rest.takeWhile (· != '?')).takeWhile (· != '/')).all (· != '?') = true :=
    all_takeWhile_of_all hbq
  have hauth_hash : ((rest.takeWhile (· != '?')).takeWhile (· != '/')).all (· != '#') = true :=
    all_takeWhile_of_all hbq_hash
  have base : ∀ (p : Char → Bool),
      ((rest.takeWhile (· != '?')).takeWhile (· != '/')).all p = true →
      ((((((rest.takeWhile (· != '?')).takeWhile (· != '/')).reverse.takeWhile
        (· != '@')).reverse).takeWhile (· != ':'))).all p = true := by
    intro p hpall
    exact all_takeWhile_of_all (all_reverse_of_all (all_takeWhile_of_all
      (all_reverse_of_all hpall)))
  have hcolon := all_takeWhile (· != ':')
    (((((rest.takeWhile (· != '?')).takeWhile (· != '/')).reverse.takeWhile (· != '@')).reverse))
  have hat : ((((((rest.takeWhile (· != '?')).takeWhile (· != '/')).reverse.takeWhile
      (· != '@')).reverse).takeWhile (· != ':'))).all (· != '@') = true :=
    all_takeWhile_of_all (all_reverse_of_all (all_takeWhile _ _))
  have hsl := base _ hauth_slash
  have hq := base _ hauth_q
  have hhash := base _ hauth_hash
  simp only [List.all_eq_true] at hsl hq hhash hcolon hat ⊢
  intro a ha
  simp only [hostChar, Bool.and_eq_true]
  exact ⟨⟨⟨⟨hsl a ha, hcolon a ha⟩, hat a ha⟩, hhash a ha⟩, hq a ha⟩

theorem pathRaw_all {rest : List Char} (hrest : rest.all (· != '#') = true) :
    ((rest.takeWhile (· != '?')).dropWhile (· != '/')).all pathChar = true := by
  have hq2 : ((rest.takeWhile (· != '?')).dropWhile (· != '/')).all (· != '?') = true :=
    all_dropWhile_of_all (all_takeWhile _ rest)
  have hh2 : ((rest.takeWhile (· != '?')).dropWhile (· != '/')).all (· != '#') = true :=
    all_dropWhile_of_all (all_takeWhile_of_all hrest)
  simp only [List.all_eq_true] at hq2 hh2 ⊢
  intro a ha
  simp only [pathChar, Bool.and_eq_true]
  exact ⟨hh2 a ha, hq2 a ha⟩

theorem pathRaw_shape {rest : List Char}
    (hne : ¬ ((rest.takeWhile (· != '?')).dropWhile (· != '/')).isEmpty = true) :
    ∃ p, (rest.takeWhile (· != '?')).dropWhile (· != '/') = '/' :: p := by
  rcases dropWhile_shape (· != '/') (rest.takeWhile (· != '?')) with hsh | ⟨c, t, hsh, hc⟩
  · rw [hsh] at hne
    simp at hne
  · have hc' : c = '/' := by simpa using hc
    subst hc'
    exact ⟨t, hsh⟩

theorem parse_wf {s : List Char} {u : UrlParts} (hp : parseUrlChars s = some u)
    (hh : u.hostname ≠ []) : UrlWF u := by
  unfold parseUrlChars at hp
  split at hp
  case _ rest heq =>
    have hs1 : (s.takeWhile (· != '#')).all (· != '#') = true := all_takeWhile _ s
    have hrest : rest.all (· != '#') = true := by
      have hdw := all_dropWhile_of_all (q := (· != ':')) hs1
      rw [heq] at hdw
      simpa using hdw
    unfold parseAfterScheme at hp
    split_ifs at hp with h1 h2 h3 h4 h5
    · rw [Option.some.injEq] at hp
      subst hp
      exact ⟨⟨_, rfl, by simpa using h1, by simpa using h2⟩, by simpa using h4,
        hostname_all hrest, ⟨[], rfl⟩, (by decide : (['/'] : List Char).all pathChar = true)⟩
    · rw [Option.some.injEq] at hp
      subst hp
      exact ⟨⟨_, rfl, by simpa using h1, by simpa using h2⟩, by simpa using h4,
        hostname_all hrest, pathRaw_shape h5, pathRaw_all hrest⟩
  case _ =>
    unfold parseOpaque at hp
    split_ifs at hp
    rw [Option.some.injEq] at hp
    subst hp
    exact absurd rfl hh
  case _ =>
    exact absurd hp (by simp)

/-- Parsing the rendered normalized form recovers the same protocol, hostname
and (defaulted) path: the key round-trip fact behind idempotence of
`getNormalizedUrl` on well-formed URLs. -/
theorem reparse {sch host q : List Char}
    (hs_ne : sch ≠ []) (hs : sch.all schemeChar = true)
    (hh_ne : host ≠ []) (hh : host.all hostChar = true)
    (hq : q.all pathChar = true)
    (hq_shape : q = [] ∨ ∃ r, q = '/' :: r) :
    parseUrlChars ((sch ++ [':']) ++ ['/', '/'] ++ host ++ q)
      = some { protocol := sch ++ [':'], hostname := host,
               pathname := if q.isEmpty then ['/'] else q, search := [] } := by
  have hsch_hash : sch.all (· != '#') = true := all_mono (fun c hc => (schemeChar_spec hc).1) hs
  have hsch_colon : sch.all (· != ':') = true :=
    all_mono (fun c hc => (schemeChar_spec hc).2.1) hs
  have hhost_slash : host.all (· != '/') = true := all_mono (fun c hc => (hostChar_spec hc).1) hh
  have hhost_colon : host.all (· != ':') = true :=
    all_mono (fun c hc => (hostChar_spec hc).2.1) hh
  have hhost_at : host.all (· != '@') = true :=
    all_mono (fun c hc => (hostChar_spec hc).2.2.1) hh
  have hhost_hash : host.all (· != '#') = true :=
    all_mono (fun c hc => (hostChar_spec hc).2.2.2.1) hh
  have hhost_q : host.all (· != '?') = true :=
    all_mono (fun c hc => (hostChar_spec hc).2.2.2.2) hh
  have hq_hash : q.all (· != '#') = true := all_mono (fun c hc => (pathChar_spec hc).1) hq
  have hq_q : q.all (· != '?') = true := all_mono (fun c hc => (pathChar_spec hc).2) hq
  have hL : (sch ++ [':']) ++ ['/', '/'] ++ host ++ q
      = sch ++ (':' :: '/' :: '/' :: (host ++ q)) := by simp
  have hallhash : (sch ++ (':' :: '/' :: '/' :: (host ++ q))).all (· != '#') = true := by
    simp only [List.all_append, List.all_cons, Bool.and_eq_true]
    exact ⟨hsch_hash, by decide, by decide, by decide, hhost_hash, hq_hash⟩
  have hdrop : (sch ++ (':' :: '/' :: '/' :: (host ++ q))).dropWhile (· != ':')
      = ':' :: '/' :: '/' :: (host ++ q) := by
    rw [dropWhile_append_of_all _ hsch_colon]
    simp [List.dropWhile]
  have htake : (sch ++ (':' :: '/' :: '/' :: (host ++ q))).takeWhile (· != ':') = sch := by
    rw [takeWhile_append_of_all _ hsch_colon]
    simp [List.takeWhile]
  have hbq : (host ++ q).takeWhile (· != '?') = host ++ q := by
    apply takeWhile_of_all
    simp only [List.all_append, Bool.and_eq_true]
    exact ⟨hhost_q, hq_q⟩
  have hauth : (host ++ q).takeWhile (· != '/') = host := by
    rcases hq_shape with hq0 | ⟨r, hqr⟩
    · rw [hq0, List.append_nil]
      exact takeWhile_of_all hhost_slash
    · rw [hqr, takeWhile_append_of_all _ hhost_slash]
      simp [List.takeWhile]
  have hpathRaw : (host ++ q).dropWhile (· != '/') = q := by
    rcases hq_shape with hq0 | ⟨r, hqr⟩
    · rw [hq0, List.append_nil, dropWhile_of_all hhost_slash]
    · rw [hqr, dropWhile_append_of_all _ hhost_slash]
      simp [List.dropWhile]
  have hhostname : ((host.reverse.takeWhile (· != '@')).reverse).takeWhile (· != ':') = host := by
    rw [takeWhile_of_all (all_reverse_of_all hhost_at), List.reverse_reverse,
      takeWhile_of_all hhost_colon]
  have hqs : (host ++ q).dropWhile (· != '?') = [] := by
    apply dropWhile_of_all
    simp only [List.all_append, Bool.and_eq_true]
    exact ⟨hhost_q, hq_q⟩
  rw [hL]
  unfold parseUrlChars
  rw [takeWhile_of_all hallhash, hdrop]
  show parseAfterScheme (((sch ++ (':' :: '/' :: '/' :: (host ++ q))) : List Char).takeWhile
    (· != ':')) (host ++ q) = _
  rw [htake]
  unfold parseAfterScheme
  rw [hbq, hauth, hpathRaw, hhostname, hqs]
  rw [if_neg (by simp [List.isEmpty_eq_false.mpr hs_ne]),
    if_neg (by simp [hs]),
    if_neg (by simp [List.isEmpty_eq_false.mpr hh_ne]),
    if_neg (by simp [List.isEmpty_eq_false.mpr hh_ne])]

theorem normChars_idem {s : List Char} {u : UrlParts} (hp : parseUrlChars s = some u)
    (hh : u.hostname ≠ []) (h2 : endsTwoSlash u.pathname = false) :
    getNormalizedUrlChars (getNormalizedUrlChars s) = getNormalizedUrlChars s := by
  have wf := parse_wf hp hh
  obtain ⟨sch, hpr, hsne, hsall⟩ := wf.scheme_ok
  obtain ⟨pp, hpp⟩ := wf.path_shape
  have hne : u.pathname ≠ [] := by rw [hpp]; simp
  have hfirst : getNormalizedUrlChars s
      = (sch ++ [':']) ++ ['/', '/'] ++ u.hostname ++ stripSlash u.pathname := by
    unfold getNormalizedUrlChars
    rw [hp]
    show stripSlash (u.protocol ++ ['/', '/'] ++ u.hostname ++ u.pathname) = _
    rw [hpr]
    calc stripSlash ((sch ++ [':']) ++ ['/', '/'] ++ u.hostname ++ u.pathname)
        = stripSlash (((sch ++ [':']) ++ (['/', '/'] ++ u.hostname)) ++ u.pathname) := by
          simp [List.append_assoc]
      _ = ((sch ++ [':']) ++ (['/', '/'] ++ u.hostname)) ++ stripSlash u.pathname :=
          stripSlash_append _ hne
      _ = (sch ++ [':']) ++ ['/', '/'] ++ u.hostname ++ stripSlash u.pathname := by
          simp [List.append_assoc]
  have hq_all : (stripSlash u.pathname).all pathChar = true :=
    all_of_sublist (stripSlash_sublist _) wf.path_ok
  have hq_shape : stripSlash u.pathname = [] ∨ ∃ r, stripSlash u.pathname = '/' :: r := by
    rw [hpp]
    exact stripSlash_shape pp
  have hre := reparse hsne hsall wf.host_ne wf.host_ok hq_all hq_shape
  rw [hfirst]
  unfold getNormalizedUrlChars
  rw [hre]
  show stripSlash ((sch ++ [':']) ++ ['/', '/'] ++ u.hostname
    ++ (if (stripSlash u.pathname).isEmpty then ['/'] else stripSlash u.pathname)) = _
  rcases hq_shape with hq0 | ⟨r, hqr⟩
  · rw [hq0]
    simp only [List.isEmpty_nil, if_true]
    calc stripSlash ((sch ++ [':']) ++ ['/', '/'] ++ u.hostname ++ ['/'])
        = stripSlash (((sch ++ [':']) ++ (['/', '/'] ++ u.hostname)) ++ ['/']) := by
          simp [List.append_assoc]
      _ = ((sch ++ [':']) ++ (['/', '/'] ++ u.hostname)) ++ stripSlash ['/'] :=
          stripSlash_append _ (by simp)
      _ = (sch ++ [':']) ++ ['/', '/'] ++ u.hostname ++ [] := by
          rw [(by decide : stripSlash ['/'] = ([] : List Char))]
          simp [List.append_assoc]
  · have hqe : (stripSlash u.pathname).isEmpty = false := by
      rw [hqr]
      rfl
    rw [hqe]
    simp only [Bool.false_eq_true, if_false]
    have hstrip2 : stripSlash (stripSlash u.pathname) = stripSlash u.pathname :=
      stripSlash_stripSlash h2
    calc stripSlash ((sch ++ [':']) ++ ['/', '/'] ++ u.hostname ++ stripSlash u.pathname)
        = stripSlash (((sch ++ [':']) ++ (['/', '/'] ++ u.hostname)) ++ stripSlash u.pathname) := by
          simp [List.append_assoc]
      _ = ((sch ++ [':']) ++ (['/', '/'] ++ u.hostname)) ++ stripSlash (stripSlash u.pathname) :=
          stripSlash_append _ (by rw [hqr]; simp)
      _ = (sch ++ [':']) ++ ['/', '/'] ++ u.hostname ++ stripSlash u.pathname := by
          rw [hstrip2]
          simp [List.append_assoc]

/-! ### C6, C7: pattern matcher claims -/

/-- C6: for a URL with an owning source, a matching exclude pattern forces
`isComponentLink` to return false regardless of the include patterns, and
with an empty include list every non-excluded URL of the source is
included. -/
theorem c6_exclude_precedence_and_empty_include (groups : List TaskGroup) (url : String)
    (u : UrlParts) (g : TaskGroup)
    (hp : parseUrlChars url.data = some u)
    (hg : findGroupByHost u.hostname groups = some g) :
    ((∃ p ∈ g.excludePatterns, p (stripSlash (u.pathname.takeWhile (· != '#'))) = true) →
        isComponentLink groups url = false) ∧
    (g.includePatterns = [] →
      (∀ p ∈ g.excludePatterns, p (stripSlash (u.pathname.takeWhile (· != '#'))) = false) →
        isComponentLink groups url = true) := by
  constructor
  · rintro ⟨p, hmem, hptrue⟩
    unfold isComponentLink
    simp only [hp, hg]
    rw [if_pos]
    simp only [Bool.and_eq_true, Bool.not_eq_true']
    refine ⟨?_, ?_⟩
    · exact List.isEmpty_eq_false.mpr (List.ne_nil_of_mem hmem)
    · exact List.any_eq_true.mpr ⟨p, hmem, hptrue⟩
  · intro hinc hnone
    unfold isComponentLink
    simp only [hp, hg]
    rw [if_neg, if_neg]
    · simp [hinc]
    · intro hcond
      simp only [Bool.and_eq_true, List.any_eq_true] at hcond
      obtain ⟨_, p, hmem, hptrue⟩ := hcond
      exact absurd hptrue (by simp [hnone p hmem])

/-- Witness for c6_exclude_precedence_and_empty_include: the two concrete
scenarios from the spec — `/apis/foo` is excluded by an exclude pattern with
empty includes, and `/guide/intro` is included when both lists are
empty/don't match. -/
theorem c6_witness :
    isComponentLink
      [{ name := "docs", url := "http://x.test/", pages := [], status := "pending",
         includePatterns := [],
         excludePatterns := [fun path => path == "/apis/foo".data] }]
      "http://x.test/apis/foo" = false ∧
    isComponentLink
      [{ name := "docs", url := "http://x.test/", pages := [], status := "pending",
         includePatterns := [], excludePatterns := [] }]
      "http://x.test/guide/intro" = true := by
  constructor
  · exact (c6_exclude_precedence_and_empty_include
      [⟨"docs", "http://x.test/", [], "pending", [], [fun path => path == "/apis/foo".data]⟩]
      "http://x.test/apis/foo"
      ⟨"http:".data, "x.test".data, "/apis/foo".data, []⟩
      ⟨"docs", "http://x.test/", [], "pending", [], [fun path => path == "/apis/foo".data]⟩
      rfl rfl).1
      ⟨fun path => path == "/apis/foo".data, List.mem_singleton.mpr rfl, by decide⟩
  · exact (c6_exclude_precedence_and_empty_include
      [⟨"docs", "http://x.test/", [], "pending", [], []⟩]
      "http://x.test/guide/intro"
      ⟨"http:".data, "x.test".data, "/guide/intro".data, []⟩
      ⟨"docs", "http://x.test/", [], "pending", [], []⟩
      rfl rfl).2 rfl
      (fun p hmem => absurd hmem (List.not_mem_nil p))

/-- C7 (code bug): the code compiles each include pattern with
`new RegExp(pattern)` and calls `.test`, an UNANCHORED substring search — the
comment above it ("确保严格匹配整个路径", ensure strict matching of the
entire path) and the spec demand an anchored entire-path match.  With include
pattern "/abc", the path "/x/abc" (which merely CONTAINS the pattern) is
accepted by the code, while the anchored entire-path match the claim
describes rejects it. -/
theorem c7_unanchored_test_includes_substring :
    isComponentLink
      [{ name := "docs", url := "http://x.test/", pages := [], status := "pending",
         includePatterns := ["/abc"], excludePatterns := [] }]
      "http://x.test/x/abc" = true ∧
    matchFull (wildcardToTokens "/abc".data) "/x/abc".data = false := by
  exact ⟨rfl, rfl⟩

/-! ### C8: normalization idempotence -/

/-- C8 counterexample: `getNormalizedUrl` is not idempotent on every URL that
parses successfully, in two distinct ways.  (1) "http://example.com//" parses
(pathname "//"), one normalization yields "http://example.com/" and a second
application strips the remaining slash, yielding "http://example.com".
(2) "mailto:info@example.com" parses as a scheme-opaque URL (empty hostname,
pathname "info@example.com", which does not end in a double slash); its
normalization fabricates "mailto://info@example.com", and the second
application re-parses that "//" as an authority and drops the userinfo,
yielding "mailto://example.com". -/
theorem c8_not_idempotent_two_ways :
    ((parseUrlChars ("http://example.com//").data).isSome = true ∧
      getNormalizedUrl "http://example.com//" = "http://example.com/" ∧
      getNormalizedUrl (getNormalizedUrl "http://example.com//")
        ≠ getNormalizedUrl "http://example.com//") ∧
    (parseUrlChars ("mailto:info@example.com").data
        = some ⟨"mailto:".data, [], "info@example.com".data, []⟩ ∧
      endsTwoSlash ("info@example.com").data = false ∧
      getNormalizedUrl "mailto:info@example.com" = "mailto://info@example.com" ∧
      getNormalizedUrl (getNormalizedUrl "mailto:info@example.com")
        = "mailto://example.com" ∧
      getNormalizedUrl (getNormalizedUrl "mailto:info@example.com")
        ≠ getNormalizedUrl "mailto:info@example.com") := by
  refine ⟨⟨rfl, rfl, by decide⟩, rfl, by decide, rfl, rfl, by decide⟩

/-- C8 amended: normalization is idempotent for every URL that parses with
an authority (nonempty hostname) whose parsed pathname does not end in a
double slash.  It is not idempotent in general: the code removes only a
single trailing slash, so a pathname ending in "//" loses one slash per
application, and a scheme-opaque URL (empty hostname) is rendered with a
fabricated "//" that a second parse reads as an authority, dropping
userinfo. -/
theorem c8_amended_idempotent (s : String) (u : UrlParts)
    (hp : parseUrlChars s.data = some u) (hh : u.hostname ≠ [])
    (h2 : endsTwoSlash u.pathname = false) :
    getNormalizedUrl (getNormalizedUrl s) = getNormalizedUrl s := by
  unfold getNormalizedUrl
  rw [asString_data]
  exact congrArg List.asString (normChars_idem hp hh h2)

/-- Witness for c8_amended_idempotent at a concrete URL. -/
theorem c8_amended_witness :
    getNormalizedUrl (getNormalizedUrl "http://example.com/a")
      = getNormalizedUrl "http://example.com/a" :=
  c8_amended_idempotent "http://example.com/a"
    ⟨"http:".data, "example.com".data, "/a".data, []⟩ rfl (by decide) (by decide)

/-! ### Association-list and merge lemmas -/

theorem assocGet_cons {α : Type} (a : String × α) (t : List (String × α)) (k : String) :
    assocGet (a :: t) k = if a.1 == k then some a.2 else assocGet t k := by
  cases h : (a.1 == k) <;> simp [assocGet, List.find?, h]

theorem replaceAllChar_cons (c : Char) (r : List Char) (d : Char) (t : List Char) :
    replaceAllChar c r (d :: t) = (if d = c then r else [d]) ++ replaceAllChar c r t := by
  simp [replaceAllChar]

theorem replaceAllChar_id {c : Char} {r : List Char} {s : List Char}
    (h : s.all (· != c) = true) : replaceAllChar c r s = s := by
  induction s with
  | nil => rfl
  | cons d t ih =>
    simp only [List.all_cons, Bool.and_eq_true] at h
    have hd : ¬ d = c := by simpa using h.1
    rw [replaceAllChar_cons, if_neg hd, ih h.2]
    rfl

theorem escFree_spec {c : Char} (h : escFree c = true) :
    (c != '\\') = true ∧ (c != '"') = true ∧ (c != '\n') = true ∧ (c != '\r') = true ∧
      (c != '\t') = true ∧ (c != '\x0C') = true := by
  simpa [escFree, Bool.and_eq_true, and_assoc] using h

theorem ensureSafeJsonString_id {s : String} (h : s.data.all escFree = true) :
    ensureSafeJsonString s = s := by
  have h1 := all_mono (fun c hc => (escFree_spec hc).1) h
  have h2 := all_mono (fun c hc => (escFree_spec hc).2.1) h
  have h3 := all_mono (fun c hc => (escFree_spec hc).2.2.1) h
  have h4 := all_mono (fun c hc => (escFree_spec hc).2.2.2.1) h
  have h5 := all_mono (fun c hc => (escFree_spec hc).2.2.2.2.1) h
  have h6 := all_mono (fun c hc => (escFree_spec hc).2.2.2.2.2) h
  unfold ensureSafeJsonString
  rw [replaceAllChar_id h1, replaceAllChar_id h2, replaceAllChar_id h3, replaceAllChar_id h4,
    replaceAllChar_id h5, replaceAllChar_id h6]

theorem assocGet_mapset_self {α : Type} (ps : List (String × α)) (k : String) (v : α)
    (hhas : assocHas ps k = true) :
    assocGet (ps.map (fun kv => if kv.1 == k then (k, v) else kv)) k = some v := by
  induction ps with
  | nil => simp [assocHas, assocGet] at hhas
  | cons a t ih =>
    cases h1 : (a.1 == k) with
    | true =>
      simp only [List.map_cons, h1, if_true]
      simp [assocGet_cons]
    | false =>
      have hhas2 : assocHas t k = true := by
        simpa [assocHas, assocGet_cons, h1] using hhas
      simp only [List.map_cons, h1, if_false, Bool.false_eq_true]
      rw [assocGet_cons, if_neg (by simp [h1])]
      exact ih hhas2

theorem assocGet_appendset_self {α : Type} (ps : List (String × α)) (k : String) (v : α)
    (hhas : assocHas ps k = false) :
    assocGet (ps ++ [(k, v)]) k = some v := by
  induction ps with
  | nil => simp [assocGet_cons]
  | cons a t ih =>
    cases h1 : (a.1 == k) with
    | true => simp [assocHas, assocGet_cons, h1] at hhas
    | false =>
      have hhas2 : assocHas t k = false := by
        simpa [assocHas, assocGet_cons, h1] using hhas
      rw [List.cons_append, assocGet_cons, if_neg (by simp [h1])]
      exact ih hhas2

theorem assocGet_set_self {α : Type} (ps : List (String × α)) (k : String) (v : α) :
    assocGet (assocSet ps k v) k = some v := by
  unfold assocSet
  by_cases hhas : assocHas ps k = true
  · rw [if_pos hhas]
    exact assocGet_mapset_self ps k v hhas
  · rw [if_neg hhas]
    exact assocGet_appendset_self ps k v (by simpa using hhas)

theorem assocGet_mapset_ne {α : Type} (ps : List (String × α)) (k k' : String) (v : α)
    (hne2 : (k == k') = false) :
    assocGet (ps.map (fun kv => if kv.1 == k then (k, v) else kv)) k' = assocGet ps k' := by
  induction ps with
  | nil => rfl
  | cons a t ih =>
    cases h1 : (a.1 == k) with
    | true =>
      have ha : a.1 = k := by simpa using h1
      simp only [List.map_cons, h1, if_true]
      rw [assocGet_cons, assocGet_cons]
      simp only [ha, hne2, Bool.false_eq_true, if_false]
      exact ih
    | false =>
      simp only [List.map_cons, h1, Bool.false_eq_true, if_false]
      rw [assocGet_cons, assocGet_cons, ih]

theorem assocGet_append_ne {α : Type} (ps : List (String × α)) (k k' : String) (v : α)
    (hne2 : (k == k') = false) :
    assocGet (ps ++ [(k, v)]) k' = assocGet ps k' := by
  induction ps with
  | nil => simp [assocGet_cons, hne2, assocGet]
  | cons a t ih =>
    rw [List.cons_append, assocGet_cons, assocGet_cons, ih]

theorem assocGet_set_ne {α : Type} (ps : List (String × α)) (k k' : String) (v : α)
    (hne : (k' == k) = false) :
    assocGet (assocSet ps k v) k' = assocGet ps k' := by
  have hne2 : (k == k') = false := by
    rw [beq_eq_false_iff_ne] at hne ⊢
    exact fun h => hne h.symm
  unfold assocSet
  by_cases hhas : assocHas ps k = true
  · rw [if_pos hhas]
    exact assocGet_mapset_ne ps k k' v hne2
  · rw [if_neg hhas]
    exact assocGet_append_ne ps k k' v hne2

theorem assocSet_all {α : Type} (P : String × α → Bool) (ps : List (String × α))
    (k : String) (v : α) (hall : ps.all P = true) (hv : P (k, v) = true) :
    (assocSet ps k v).all P = true := by
  unfold assocSet
  by_cases hhas : assocHas ps k = true
  · rw [if_pos hhas]
    simp only [List.all_eq_true] at hall ⊢
    intro x hx
    obtain ⟨y, hy, rfl⟩ := List.mem_map.mp hx
    by_cases h1 : (y.1 == k) = true
    · simpa [h1] using hv
    · simpa [h1] using hall y hy
  · rw [if_neg hhas]
    simp only [List.all_append, List.all_cons, List.all_nil, Bool.and_eq_true]
    exact ⟨hall, hv, trivial⟩

theorem mergeStep_get_ne (pages : List (String × JPage)) (url : String) (pd : PageS)
    (k : String) (hne : (k == url) = false) :
    assocGet (mergeStep pages url pd).1 k = assocGet pages k := by
  unfold mergeStep
  cases hfs : findSimilarPage url (.jstr (ensureSafeJsonString pd.title))
      (.jstr (ensureSafeJsonString pd.content)) pages with
  | error e => simp only [hfs]; exact assocGet_set_ne _ _ _ _ hne
  | ok o =>
    cases o with
    | none => simp only [hfs]; exact assocGet_set_ne _ _ _ _ hne
    | some s => simp only [hfs]

theorem mergeStep_nobig (pages : List (String × JPage)) (url : String) (pd : PageS)
    (hall : pages.all (fun kv => !(pageHasBig kv.2)) = true) :
    (mergeStep pages url pd).1.all (fun kv => !(pageHasBig kv.2)) = true := by
  unfold mergeStep
  cases hfs : findSimilarPage url (.jstr (ensureSafeJsonString pd.title))
      (.jstr (ensureSafeJsonString pd.content)) pages with
  | error e => simp only [hfs]; exact assocSet_all _ _ _ _ hall rfl
  | ok o =>
    cases o with
    | none => simp only [hfs]; exact assocSet_all _ _ _ _ hall rfl
    | some s => simp only [hfs]; exact hall

theorem mergeFold_get_ne (pend : List (String × PageS)) :
    ∀ (acc : List (String × JPage) × Nat) (k : String),
      (∀ kv ∈ pend, (k == kv.1) = false) →
      assocGet (pend.foldl (fun acc kv =>
        ((mergeStep acc.1 kv.1 kv.2).1,
          acc.2 + (if (mergeStep acc.1 kv.1 kv.2).2 then 1 else 0))) acc).1 k
        = assocGet acc.1 k := by
  induction pend with
  | nil => intro acc k _; rfl
  | cons a t ih =>
    intro acc k h
    simp only [List.foldl_cons]
    rw [ih _ k (fun kv hkv => h kv (List.mem_cons_of_mem a hkv))]
    exact mergeStep_get_ne _ _ _ _ (h a (List.mem_cons_self a t))

theorem mergeFold_nobig (pend : List (String × PageS)) :
    ∀ (acc : List (String × JPage) × Nat),
      acc.1.all (fun kv => !(pageHasBig kv.2)) = true →
      ((pend.foldl (fun acc kv =>
        ((mergeStep acc.1 kv.1 kv.2).1,
          acc.2 + (if (mergeStep acc.1 kv.1 kv.2).2 then 1 else 0))) acc).1).all
          (fun kv => !(pageHasBig kv.2)) = true := by
  induction pend with
  | nil => intro acc h; exact h
  | cons a t ih =>
    intro acc h
    simp only [List.foldl_cons]
    exact ih _ (mergeStep_nobig _ _ _ h)

theorem serializeOutcome_of_all {merged : List (String × JPage)}
    (h : merged.all (fun kv => !(pageHasBig kv.2)) = true) :
    serializeOutcome merged = merged := by
  unfold serializeOutcome
  rw [if_pos h]

theorem findSimilarPage_none (url : String) (t c : JVal) (pages : List (String × JPage))
    (h : ∀ kv ∈ pages, (kv.1 == url) = true ∨ (t == kv.2.title) = false) :
    findSimilarPage url t c pages = .ok none := by
  induction pages with
  | nil => rfl
  | cons a tl ih =>
    obtain ⟨k, q⟩ := a
    have ih2 := ih (fun kv hkv => h kv (List.mem_cons_of_mem _ hkv))
    by_cases hk : (k == url) = true
    · simp [findSimilarPage, hk, ih2]
    · rcases h (k, q) (List.mem_cons_self _ _) with h1 | h1
      · exact absurd h1 hk
      · simp [findSimilarPage, hk, h1, ih2]

/-! ### C2: merge non-destructiveness -/

/-- C2 counterexample: when the merged data fails to serialize (an existing
page holds a value `JSON.stringify` throws on, as the legacy Function-based
parse can produce), the fallback at lines 418-427 keeps only individually
serializable pages — the pre-existing key "http://d.test/old" is present
before the flush but absent from the written store. -/
theorem c2_fallback_drops_existing_key :
    assocGet [("http://d.test/old", (⟨JVal.jstr "Old", JVal.jbig 1⟩ : JPage))]
        "http://d.test/old" = some ⟨JVal.jstr "Old", JVal.jbig 1⟩ ∧
    flushMerge [("http://d.test/old", ⟨JVal.jstr "Old", JVal.jbig 1⟩)]
        [("http://d.test/new", ⟨"New", "fresh words"⟩)]
      = .written [("http://d.test/new", ⟨JVal.jstr "New", JVal.jstr "fresh words"⟩)] := by
  exact ⟨by decide, by decide⟩

/-- C2 amended: provided every value already in the store is serializable
(plain string fields, as every store written purely by this pipeline has),
a flush either skips the write or writes a store in which every pre-existing
key not among the flushed pending URLs is still present with its unchanged
value. -/
theorem c2_amended_frame_preserved (ex : List (String × JPage)) (pend : List (String × PageS))
    (k : String) (v : JPage)
    (hk : assocGet ex k = some v)
    (hnp : ∀ kv ∈ pend, (k == kv.1) = false)
    (hser : ex.all (fun kv => !(pageHasBig kv.2)) = true) :
    flushMerge ex pend = .skipped ∨
    (flushMerge ex pend = .written (serializeOutcome (mergePending ex pend).1) ∧
      assocGet (serializeOutcome (mergePending ex pend).1) k = some v) := by
  unfold flushMerge
  by_cases h0 : ((mergePending ex pend).2 == 0) = true
  · left
    rw [if_pos h0]
  · right
    refine ⟨by rw [if_neg h0], ?_⟩
    have hall : (mergePending ex pend).1.all (fun kv => !(pageHasBig kv.2)) = true := by
      unfold mergePending
      exact mergeFold_nobig pend (ex, 0) hser
    rw [serializeOutcome_of_all hall]
    unfold mergePending
    rw [mergeFold_get_ne pend (ex, 0) k hnp]
    exact hk

/-- Witness for c2_amended_frame_preserved on a concrete store and flush. -/
theorem c2_amended_witness :
    flushMerge [("http://d.test/a", ⟨JVal.jstr "A", JVal.jstr "alpha"⟩)]
        [("http://d.test/b", ⟨"B", "beta"⟩)] = .skipped ∨
    (flushMerge [("http://d.test/a", ⟨JVal.jstr "A", JVal.jstr "alpha"⟩)]
        [("http://d.test/b", ⟨"B", "beta"⟩)]
      = .written (serializeOutcome (mergePending
          [("http://d.test/a", ⟨JVal.jstr "A", JVal.jstr "alpha"⟩)]
          [("http://d.test/b", ⟨"B", "beta"⟩)]).1) ∧
      assocGet (serializeOutcome (mergePending
          [("http://d.test/a", ⟨JVal.jstr "A", JVal.jstr "alpha"⟩)]
          [("http://d.test/b", ⟨"B", "beta"⟩)]).1) "http://d.test/a"
        = some ⟨JVal.jstr "A", JVal.jstr "alpha"⟩) :=
  c2_amended_frame_preserved
    [("http://d.test/a", ⟨JVal.jstr "A", JVal.jstr "alpha"⟩)]
    [("http://d.test/b", ⟨"B", "beta"⟩)]
    "http://d.test/a" ⟨JVal.jstr "A", JVal.jstr "alpha"⟩
    (by decide) (by decide) (by decide)

/-! ### C4: pages persisted as-is -/

/-- C4 counterexample: the flush runs every pending page through
ensureSafeJsonData (line 358), which escapes quotes, backslashes and control
characters before serialization, so the persisted content differs from the
string the renderer produced: "a\"b" is stored as "a\\\"b". -/
theorem c4_escaped_not_as_is :
    flushMerge [] [("http://d.test/p", ⟨"T", "a\"b"⟩)]
      = .written [("http://d.test/p", ⟨JVal.jstr "T", JVal.jstr "a\\\"b"⟩)] ∧
    ("a\\\"b" : String) ≠ "a\"b" := by
  exact ⟨by decide, by decide⟩

/-- C4 amended: a produced record whose title and content contain none of the
characters ensureSafeJsonData escapes (backslash, double quote, \n, \r, \t,
\f), whose title is non-empty, and whose title matches no differently-keyed
existing page, is persisted identically (assuming the store's values are
serializable so the normal path is taken). -/
theorem c4_amended_escape_free_preserved (ex : List (String × JPage)) (url : String) (pd : PageS)
    (ht : pd.title.data.all escFree = true)
    (hc : pd.content.data.all escFree = true)
    (hne : (pd.title == "") = false)
    (hser : ex.all (fun kv => !(pageHasBig kv.2)) = true)
    (hsim : ∀ kv ∈ ex, (kv.1 == url) = true ∨ (JVal.jstr pd.title == kv.2.title) = false) :
    flushMerge ex [(url, pd)]
      = .written (serializeOutcome (mergePending ex [(url, pd)]).1) ∧
    assocGet (serializeOutcome (mergePending ex [(url, pd)]).1) url
      = some ⟨JVal.jstr pd.title, JVal.jstr pd.content⟩ := by
  have hidT : ensureSafeJsonString pd.title = pd.title := ensureSafeJsonString_id ht
  have hidC : ensureSafeJsonString pd.content = pd.content := ensureSafeJsonString_id hc
  have hfs : findSimilarPage url (.jstr (ensureSafeJsonString pd.title))
      (.jstr (ensureSafeJsonString pd.content)) ex = .ok none := by
    rw [hidT]
    exact findSimilarPage_none _ _ _ _ hsim
  have hms : mergeStep ex url pd
      = (assocSet ex url ⟨JVal.jstr pd.title, JVal.jstr pd.content⟩, true) := by
    unfold mergeStep
    simp only [hfs]
    rw [hidT, hidC, hne]
    simp
  have hmp : mergePending ex [(url, pd)]
      = (assocSet ex url ⟨JVal.jstr pd.title, JVal.jstr pd.content⟩, 1) := by
    unfold mergePending
    simp only [List.foldl_cons, List.foldl_nil, hms]
    simp
  have hall : (assocSet ex url (⟨JVal.jstr pd.title, JVal.jstr pd.content⟩ : JPage)).all
      (fun kv => !(pageHasBig kv.2)) = true :=
    assocSet_all _ _ _ _ hser rfl
  constructor
  · unfold flushMerge
    rw [hmp]
    simp
  · rw [hmp, serializeOutcome_of_all hall]
    exact assocGet_set_self ex url _

/-- Witness for c4_amended_escape_free_preserved on a concrete flush. -/
theorem c4_amended_witness :
    flushMerge [] [("http://d.test/w", ⟨"W", "plain text"⟩)]
      = .written (serializeOutcome (mergePending []
          [("http://d.test/w", ⟨"W", "plain text"⟩)]).1) ∧
    assocGet (serializeOutcome (mergePending []
        [("http://d.test/w", ⟨"W", "plain text"⟩)]).1) "http://d.test/w"
      = some ⟨JVal.jstr "W", JVal.jstr "plain text"⟩ :=
  c4_amended_escape_free_preserved [] "http://d.test/w" ⟨"W", "plain text"⟩
    (by decide) (by decide) (by decide) (by decide)
    (fun kv hkv => absurd hkv (List.not_mem_nil kv))

/-! ### C5: similarity suppression -/

/-- C5 counterexample: two pages with identical titles, equal significant
word counts (10 each) and EXACTLY 70 percent shared significant words (7 of
10).  The claim ("at least 70 percent") requires the new page to be skipped,
but the code requires strictly more than 70 percent
(`commonWords > words2.length * 0.7`), so both entries are persisted. -/
theorem c5_exact_seventy_percent_not_skipped :
    ((significantWords "aaaa bbbb cccc dddd eeee ffff gggg hhhh iiii jjjj").length = 10 ∧
     ((significantWords "aaaa bbbb cccc dddd eeee ffff gggg hhhh iiii jjjj").filter
        (fun w => (significantWords
          "aaaa bbbb cccc dddd eeee ffff gggg xxxx yyyy zzzz").contains w)).length = 7) ∧
    flushMerge [("http://d.test/old",
        ⟨JVal.jstr "T", JVal.jstr "aaaa bbbb cccc dddd eeee ffff gggg hhhh iiii jjjj"⟩)]
      [("http://d.test/new", ⟨"T", "aaaa bbbb cccc dddd eeee ffff gggg xxxx yyyy zzzz"⟩)]
      = .written
        [("http://d.test/old",
          ⟨JVal.jstr "T", JVal.jstr "aaaa bbbb cccc dddd eeee ffff gggg hhhh iiii jjjj"⟩),
         ("http://d.test/new",
          ⟨JVal.jstr "T", JVal.jstr "aaaa bbbb cccc dddd eeee ffff gggg xxxx yyyy zzzz"⟩)] := by
  exact ⟨⟨by decide, by decide⟩, by decide⟩

/-- C5 amended: with titles strictly equal, near-equal significant word
counts (10·|w1−w2| ≤ 3·w1) and STRICTLY more than 70 percent of the existing
page's significant words shared (10·common > 7·w2), the new page is skipped
and the flush is a no-op, so only the existing entry stays persisted. -/
theorem c5_amended_strict_overlap_skipped (k url : String) (pd : PageS) (qc : String)
    (hk : (k == url) = false)
    (htE : pd.title.data.all escFree = true)
    (hcE : pd.content.data.all escFree = true)
    (hne1 : (pd.content == "") = false)
    (hne2 : (qc == "") = false)
    (hcount : 10 * (((significantWords pd.content).length : Int)
        - ((significantWords qc).length : Int)).natAbs
      ≤ 3 * (significantWords pd.content).length)
    (hover : 7 * (significantWords qc).length
      < 10 * ((significantWords qc).filter
          (fun w => (significantWords pd.content).contains w)).length) :
    flushMerge [(k, ⟨JVal.jstr pd.title, JVal.jstr qc⟩)] [(url, pd)] = .skipped := by
  have hidT : ensureSafeJsonString pd.title = pd.title := ensureSafeJsonString_id htE
  have hidC : ensureSafeJsonString pd.content = pd.content := ensureSafeJsonString_id hcE
  have hsim : isSimilarContent (.jstr pd.content) (.jstr qc) = .ok true := by
    unfold isSimilarContent
    rw [if_neg (by simp [jTruthy, hne1, hne2])]
    by_cases hceq : (JVal.jstr pd.content == JVal.jstr qc) = true
    · rw [if_pos hceq]
    · rw [if_neg hceq]
      show (if 10 * (((significantWords pd.content).length : Int)
            - ((significantWords qc).length : Int)).natAbs
            > 3 * (significantWords pd.content).length then Except.ok false
          else Except.ok (decide (10 * ((significantWords qc).filter
            (fun w => (significantWords pd.content).contains w)).length
              > 7 * (significantWords qc).length))) = Except.ok true
      rw [if_neg (by omega), decide_eq_true hover]
  have hfs : findSimilarPage url (.jstr (ensureSafeJsonString pd.title))
      (.jstr (ensureSafeJsonString pd.content))
      [(k, ⟨JVal.jstr pd.title, JVal.jstr qc⟩)] = .ok (some k) := by
    rw [hidT, hidC]
    have hkne : (k == url) = false := hk
    simp only [findSimilarPage, hkne, Bool.false_eq_true, if_false]
    rw [if_pos (by simp), hsim]
  have hms : mergeStep [(k, (⟨JVal.jstr pd.title, JVal.jstr qc⟩ : JPage))] url pd
      = ([(k, ⟨JVal.jstr pd.title, JVal.jstr qc⟩)], false) := by
    unfold mergeStep
    simp only [hfs]
  unfold flushMerge mergePending
  simp [List.foldl_cons, List.foldl_nil, hms]

/-- Witness for c5_amended_strict_overlap_skipped: 8 of 10 significant words
shared (80 percent, strictly above the threshold) with equal titles — the new
page is skipped and the flush writes nothing. -/
theorem c5_amended_witness :
    flushMerge [("http://d.test/old",
        ⟨JVal.jstr "T", JVal.jstr "aaaa bbbb cccc dddd eeee ffff gggg hhhh iiii jjjj"⟩)]
      [("http://d.test/new", ⟨"T", "aaaa bbbb cccc dddd eeee ffff gggg hhhh xxxx yyyy"⟩)]
      = .skipped :=
  c5_amended_strict_overlap_skipped "http://d.test/old" "http://d.test/new"
    ⟨"T", "aaaa bbbb cccc dddd eeee ffff gggg hhhh xxxx yyyy"⟩
    "aaaa bbbb cccc dddd eeee ffff gggg hhhh iiii jjjj"
    (by decide) (by decide) (by decide) (by decide) (by decide) (by decide) (by decide)

/-! ### Crawl-state lemmas -/

theorem findGroup_cons (a : TaskGroup) (t : List TaskGroup) (nm : String) :
    findGroup (a :: t) nm = if a.name == nm then some a else findGroup t nm := by
  cases h : (a.name == nm) <;> simp [findGroup, List.find?, h]

theorem findGroup_map_upd_self (groups : List TaskGroup) (nm : String)
    (f : TaskGroup → TaskGroup) (hf : ∀ g, (f g).name = g.name) :
    findGroup (groups.map (fun g => if g.name == nm then f g else g)) nm
      = (findGroup groups nm).map f := by
  induction groups with
  | nil => rfl
  | cons a t ih =>
    by_cases h1 : (a.name == nm) = true
    · simp only [List.map_cons, h1, if_true]
      rw [findGroup_cons, findGroup_cons, hf a, h1]
      simp
    · have h1f : (a.name == nm) = false := by simpa using h1
      simp only [List.map_cons, h1f, Bool.false_eq_true, if_false]
      rw [findGroup_cons, findGroup_cons, h1f]
      simpa using ih

theorem findGroup_map_upd_ne (groups : List TaskGroup) (nm nm2 : String)
    (f : TaskGroup → TaskGroup) (hf : ∀ g, (f g).name = g.name) (hne : nm2 ≠ nm) :
    findGroup (groups.map (fun g => if g.name == nm then f g else g)) nm2
      = findGroup groups nm2 := by
  induction groups with
  | nil => rfl
  | cons a t ih =>
    by_cases h1 : (a.name == nm) = true
    · have ha : a.name = nm := by simpa using h1
      have h2 : (a.name == nm2) = false := by
        rw [beq_eq_false_iff_ne, ha]
        exact fun h => hne h.symm
      simp only [List.map_cons, h1, if_true]
      rw [findGroup_cons, findGroup_cons, hf a, h2]
      simpa using ih
    · simp only [List.map_cons, h1, Bool.false_eq_true, if_false]
      rw [findGroup_cons, findGroup_cons]
      cases h2 : (a.name == nm2) with
      | true => simp
      | false => simpa using ih

theorem findGroup_pagesupd_self (groups : List TaskGroup) (nm k : String) (v : PageRecord) :
    findGroup (groups.map (fun g => if g.name == nm
        then { g with pages := assocSet g.pages k v } else g)) nm
      = (findGroup groups nm).map (fun g => { g with pages := assocSet g.pages k v }) :=
  findGroup_map_upd_self groups nm
    (fun g => { g with pages := assocSet g.pages k v }) (fun _ => rfl)

theorem findGroup_pagesupd_ne (groups : List TaskGroup) (nm nm2 k : String) (v : PageRecord)
    (hne : nm2 ≠ nm) :
    findGroup (groups.map (fun g => if g.name == nm
        then { g with pages := assocSet g.pages k v } else g)) nm2
      = findGroup groups nm2 :=
  findGroup_map_upd_ne groups nm nm2
    (fun g => { g with pages := assocSet g.pages k v }) (fun _ => rfl) hne

theorem findGroup_self_of_nodup (groups : List TaskGroup)
    (hnd : (groups.map (fun g => g.name)).Nodup) :
    ∀ g ∈ groups, findGroup groups g.name = some g := by
  induction groups with
  | nil => intro g hg; exact absurd hg (List.not_mem_nil g)
  | cons a t ih =>
    intro g hg
    rw [List.map_cons, List.nodup_cons] at hnd
    rcases List.mem_cons.mp hg with rfl | hgt
    · rw [findGroup_cons, if_pos (beq_self_eq_true g.name)]
    · have h2 : (a.name == g.name) = false := by
        rw [beq_eq_false_iff_ne]
        intro hcon
        exact hnd.1 (hcon ▸ List.mem_map_of_mem (fun g2 => g2.name) hgt)
      rw [findGroup_cons, h2]
      simpa using ih hnd.2 g hgt

theorem map_name_upd (groups : List TaskGroup) (nm : String) (f : TaskGroup → TaskGroup)
    (hf : ∀ g, (f g).name = g.name) :
    (groups.map (fun g => if g.name == nm then f g else g)).map (fun g => g.name)
      = groups.map (fun g => g.name) := by
  rw [List.map_map]
  apply List.map_congr_left
  intro g _
  by_cases h : (g.name == nm) = true
  · simp [Function.comp, h, hf]
  · simp [Function.comp, h]

theorem processLoop_ok_facts (render : Nat → RenderOutcome) (rec : PageRecord)
    (links : List String) (url n nm gUrl : String) (fuel attempt : Nat) (st : CrawlSt)
    (hr : render attempt = .ok rec links) :
    (processLoop render url n nm gUrl (fuel + 1) attempt st).groups
        = st.groups.map (fun g => if g.name == nm
            then { g with pages := assocSet g.pages n (successRecord n rec) } else g) ∧
    (processLoop render url n nm gUrl (fuel + 1) attempt st).processingUrls
        = st.processingUrls ∧
    (processLoop render url n nm gUrl (fuel + 1) attempt st).saveLog
        = st.saveLog ++ [(nm, n, successRecord n rec)] := by
  refine ⟨?_, ?_, ?_⟩ <;>
    simp [processLoop, hr, setGroupPage, addProcessing, removeProcessing,
      List.erase_cons_head]

theorem processLoop_fail_step (render : Nat → RenderOutcome) (msg : String)
    (url n nm gUrl : String) (fuel attempt : Nat) (st : CrawlSt)
    (hr : render attempt = .fail msg) (hlt : attempt + 1 < 3) :
    processLoop render url n nm gUrl (fuel + 1) attempt st
      = processLoop render url n nm gUrl fuel (attempt + 1)
          (removeProcessing n (markFailed n msg (addProcessing n st))) := by
  simp [processLoop, hr, hlt]

theorem processLoop_fail_last (render : Nat → RenderOutcome) (msg : String)
    (url n nm gUrl : String) (fuel attempt : Nat) (st : CrawlSt)
    (hr : render attempt = .fail msg) (hge : ¬ (attempt + 1 < 3)) :
    processLoop render url n nm gUrl (fuel + 1) attempt st
      = removeProcessing n
          { (setGroupPage nm n (errorPage url msg) (markFailed n msg (addProcessing n st))) with
            saveLog := ((markFailed n msg (addProcessing n st)).saveLog
              ++ [(nm, n, errorPage url msg)]) } := by
  simp [processLoop, hr, hge]

theorem processLoop_fail3_facts (render : Nat → RenderOutcome) (m0 m1 m2 : String)
    (url n nm gUrl : String) (st : CrawlSt)
    (h0 : render 0 = .fail m0) (h1 : render 1 = .fail m1) (h2 : render 2 = .fail m2) :
    (processLoop render url n nm gUrl 3 0 st).groups
        = st.groups.map (fun g => if g.name == nm
            then { g with pages := assocSet g.pages n (errorPage url m2) } else g) ∧
    (processLoop render url n nm gUrl 3 0 st).processingUrls = st.processingUrls ∧
    (processLoop render url n nm gUrl 3 0 st).saveLog
        = st.saveLog ++ [(nm, n, errorPage url m2)] := by
  have e1 := processLoop_fail_step render m0 url n nm gUrl 2 0 st h0 (by norm_num)
  have e2 := processLoop_fail_step render m1 url n nm gUrl 1 1
    (removeProcessing n (markFailed n m0 (addProcessing n st))) h1 (by norm_num)
  have e3 := processLoop_fail_last render m2 url n nm gUrl 0 2
    (removeProcessing n (markFailed n m1 (addProcessing n
      (removeProcessing n (markFailed n m0 (addProcessing n st)))))) h2 (by norm_num)
  have key : processLoop render url n nm gUrl 3 0 st
      = removeProcessing n
          { (setGroupPage nm n (errorPage url m2) (markFailed n m2 (addProcessing n
              (removeProcessing n (markFailed n m1 (addProcessing n
                (removeProcessing n (markFailed n m0 (addProcessing n st))))))))) with
            saveLog := ((markFailed n m2 (addProcessing n
              (removeProcessing n (markFailed n m1 (addProcessing n
                (removeProcessing n (markFailed n m0 (addProcessing n st)))))))).saveLog
              ++ [(nm, n, errorPage url m2)]) } := by
    rw [show (3 : Nat) = 2 + 1 from rfl, e1, e2, e3]
  refine ⟨?_, ?_, ?_⟩ <;>
    · rw [key]
      simp [setGroupPage, addProcessing, removeProcessing, markFailed,
        List.erase_cons_head]

theorem processUrl_none (render : Nat → RenderOutcome) (url nm : String) (st : CrawlSt)
    (hg : findGroup st.groups nm = none) :
    processUrl render url nm st = st := by
  unfold processUrl
  simp [hg]

theorem processUrl_skip (render : Nat → RenderOutcome) (url nm : String) (st : CrawlSt)
    (g : TaskGroup) (hg : findGroup st.groups nm = some g)
    (hhas : assocHas g.pages (getNormalizedUrl url) = true) :
    processUrl render url nm st = st := by
  unfold processUrl
  simp [hg, hhas]

theorem processUrl_ok_facts (render : Nat → RenderOutcome) (rec : PageRecord)
    (links : List String) (url nm : String) (st : CrawlSt) (g : TaskGroup)
    (hr : render 0 = .ok rec links)
    (hg : findGroup st.groups nm = some g)
    (hnc : st.processingUrls.contains (getNormalizedUrl url) = false)
    (hnp : assocHas g.pages (getNormalizedUrl url) = false) :
    (processUrl render url nm st).groups
        = st.groups.map (fun g2 => if g2.name == nm
            then { g2 with pages := (assocSet g2.pages (getNormalizedUrl url)
                (successRecord (getNormalizedUrl url) rec)) } else g2) ∧
    (processUrl render url nm st).processingUrls = st.processingUrls ∧
    (processUrl render url nm st).saveLog
        = st.saveLog ++ [(nm, getNormalizedUrl url, successRecord (getNormalizedUrl url) rec)] := by
  have hloop := processLoop_ok_facts render rec links url (getNormalizedUrl url) nm g.url 2 0 st hr
  unfold processUrl
  simp only [hg, hnc, hnp, Bool.or_self, Bool.false_eq_true, if_false]
  exact hloop

theorem processUrl_fail3_facts (render : Nat → RenderOutcome) (m0 m1 m2 : String)
    (url nm : String) (st : CrawlSt) (g : TaskGroup)
    (h0 : render 0 = .fail m0) (h1 : render 1 = .fail m1) (h2 : render 2 = .fail m2)
    (hg : findGroup st.groups nm = some g)
    (hnc : st.processingUrls.contains (getNormalizedUrl url) = false)
    (hnp : assocHas g.pages (getNormalizedUrl url) = false) :
    (processUrl render url nm st).groups
        = st.groups.map (fun g2 => if g2.name == nm
            then { g2 with pages := (assocSet g2.pages (getNormalizedUrl url)
                (errorPage url m2)) } else g2) ∧
    (processUrl render url nm st).processingUrls = st.processingUrls ∧
    (processUrl render url nm st).saveLog
        = st.saveLog ++ [(nm, getNormalizedUrl url, errorPage url m2)] := by
  have hloop := processLoop_fail3_facts render m0 m1 m2 url (getNormalizedUrl url) nm g.url st
    h0 h1 h2
  unfold processUrl
  simp only [hg, hnc, hnp, Bool.or_self, Bool.false_eq_true, if_false]
  exact hloop

theorem processLoop_names (render : Nat → RenderOutcome) (url n nm gUrl : String) :
    ∀ (fuel attempt : Nat) (st : CrawlSt),
      (processLoop render url n nm gUrl fuel attempt st).groups.map (fun g => g.name)
        = st.groups.map (fun g => g.name) := by
  intro fuel
  induction fuel with
  | zero => intro _ _; rfl
  | succ f ih =>
    intro attempt st
    cases hr : render attempt with
    | ok rec links =>
      simp only [processLoop, hr, setGroupPage, addProcessing, removeProcessing]
      rw [List.map_map]
      apply List.map_congr_left
      intro a _
      by_cases h : (a.name == nm) = true <;> simp [Function.comp, h]
    | fail msg =>
      by_cases hlt : attempt + 1 < 3
      · rw [processLoop_fail_step render msg url n nm gUrl f attempt st hr hlt, ih]
        rfl
      · rw [processLoop_fail_last render msg url n nm gUrl f attempt st hr hlt]
        simp only [setGroupPage, addProcessing, removeProcessing, markFailed]
        rw [List.map_map]
        apply List.map_congr_left
        intro a _
        by_cases h : (a.name == nm) = true <;> simp [Function.comp, h]

theorem processUrl_names (render : Nat → RenderOutcome) (url nm : String) (st : CrawlSt) :
    (processUrl render url nm st).groups.map (fun g => g.name)
      = st.groups.map (fun g => g.name) := by
  unfold processUrl
  cases hg : findGroup st.groups nm with
  | none => rfl
  | some g =>
    cases hcb : (st.processingUrls.contains (getNormalizedUrl url)
        || assocHas g.pages (getNormalizedUrl url)) with
    | true =>
      simp only [hcb]
      simp
    | false =>
      simp only [hcb, Bool.false_eq_true, if_false]
      exact processLoop_names render url (getNormalizedUrl url) nm g.url 3 0 st

theorem fold_processUrl_names (render : Nat → RenderOutcome) (url : String) :
    ∀ (ns : List String) (s : CrawlSt),
      ((ns.foldl (fun t nm2 => processUrl render url nm2 t) s)).groups.map (fun g => g.name)
        = s.groups.map (fun g => g.name) := by
  intro ns
  induction ns with
  | nil => intro s; rfl
  | cons nm0 rest ih =>
    intro s
    simp only [List.foldl_cons]
    rw [ih, processUrl_names]

theorem foldNames_records (render : Nat → RenderOutcome) (rec : PageRecord)
    (links : List String) (url : String) (hr : render 0 = .ok rec links) :
    ∀ (ns : List String) (s : CrawlSt),
      s.processingUrls = [] →
      ns.Nodup →
      (∀ nm ∈ ns, ∀ g, findGroup s.groups nm = some g →
        assocGet g.pages (getNormalizedUrl url) = none) →
      ((∀ nm ∈ ns, ∀ g',
          findGroup ((ns.foldl (fun t nm2 => processUrl render url nm2 t) s)).groups nm
            = some g' →
          assocGet g'.pages (getNormalizedUrl url)
            = some (successRecord (getNormalizedUrl url) rec)) ∧
       (∀ nm, nm ∉ ns →
          findGroup ((ns.foldl (fun t nm2 => processUrl render url nm2 t) s)).groups nm
            = findGroup s.groups nm) ∧
       (ns.foldl (fun t nm2 => processUrl render url nm2 t) s).processingUrls = []) := by
  intro ns
  induction ns with
  | nil =>
    intro s hproc _ _
    exact ⟨fun nm h => absurd h (List.not_mem_nil nm), fun nm _ => rfl, hproc⟩
  | cons nm0 rest ih =>
    intro s hproc hnd hnone
    rw [List.nodup_cons] at hnd
    cases hg : findGroup s.groups nm0 with
    | none =>
      have hstep : processUrl render url nm0 s = s := processUrl_none render url nm0 s hg
      simp only [List.foldl_cons, hstep]
      have IH := ih s hproc hnd.2 (fun nm h => hnone nm (List.mem_cons_of_mem nm0 h))
      refine ⟨?_, ?_, IH.2.2⟩
      · intro nm hm g' hfind
        rcases List.mem_cons.mp hm with rfl | hmr
        · rw [IH.2.1 nm hnd.1, hg] at hfind
          exact absurd hfind (by simp)
        · exact IH.1 nm hmr g' hfind
      · intro nm hm
        exact IH.2.1 nm (fun h => hm (List.mem_cons_of_mem nm0 h))
    | some g =>
      have hnc : s.processingUrls.contains (getNormalizedUrl url) = false := by
        rw [hproc]
        rfl
      have hnp : assocHas g.pages (getNormalizedUrl url) = false := by
        unfold assocHas
        rw [hnone nm0 (List.mem_cons_self nm0 rest) g hg]
        rfl
      have hfacts := processUrl_ok_facts render rec links url nm0 s g hr hg hnc hnp
      have hproc1 : (processUrl render url nm0 s).processingUrls = [] := by
        rw [hfacts.2.1, hproc]
      have hrestnone : ∀ nm ∈ rest, ∀ g2,
          findGroup (processUrl render url nm0 s).groups nm = some g2 →
          assocGet g2.pages (getNormalizedUrl url) = none := by
        intro nm hm g2 hf2
        have hne : nm ≠ nm0 := fun h => hnd.1 (h ▸ hm)
        rw [hfacts.1, findGroup_pagesupd_ne s.groups nm0 nm _ _ hne] at hf2
        exact hnone nm (List.mem_cons_of_mem nm0 hm) g2 hf2
      have IH := ih (processUrl render url nm0 s) hproc1 hnd.2 hrestnone
      simp only [List.foldl_cons]
      refine ⟨?_, ?_, IH.2.2⟩
      · intro nm hm g' hfind
        rcases List.mem_cons.mp hm with rfl | hmr
        · rw [IH.2.1 nm hnd.1, hfacts.1,
            findGroup_pagesupd_self s.groups nm _ _, hg, Option.map_some',
            Option.some.injEq] at hfind
          rw [← hfind]
          exact assocGet_set_self g.pages (getNormalizedUrl url) _
        · exact IH.1 nm hmr g' hfind
      · intro nm hm
        have hne : nm ≠ nm0 := fun h => hm (h ▸ List.mem_cons_self nm0 rest)
        rw [IH.2.1 nm (fun h => hm (List.mem_cons_of_mem nm0 h)), hfacts.1,
          findGroup_pagesupd_ne s.groups nm0 nm _ _ hne]

/-! ### C1: once per run vs once per task group -/

/-- C1 counterexample: with two registered sources, a URL claimed from
pendingUrls is processed and recorded once PER TASK GROUP, not once per run:
the dispatch loop (lines 938-940) iterates every task group, the line-563
check consults only the current group's pages, and processingUrls is cleared
again in each call's finally — so both groups record the page and savePage is
called twice. -/
theorem c1_recorded_twice_with_two_sources :
    (let st0 : CrawlSt := ⟨[⟨"A", "http://a.test/", [], "pending", [], []⟩,
                            ⟨"B", "http://b.test/", [], "pending", [], []⟩],
                           [],
                           [("http://a.test/page",
                             ⟨"http://a.test/page", "pending", 0, none, none⟩)],
                           0, []⟩
     let st1 := processUrlQueueStep (fun _ => RenderOutcome.ok ⟨"T", "C"⟩ [])
       "http://a.test/page" st0
     groupPage st1 "A" "http://a.test/page" = some ⟨"T", "C"⟩ ∧
     groupPage st1 "B" "http://a.test/page" = some ⟨"T", "C"⟩ ∧
     st1.saveLog = [("A", "http://a.test/page", ⟨"T", "C"⟩),
                    ("B", "http://a.test/page", ⟨"T", "C"⟩)]) := by
  exact ⟨by decide, by decide, by decide⟩

/-- C1 amended: a claimed URL is recorded once per registered task group —
after the dispatch of processUrlQueue, every task group (none of which
already contained the URL) holds the page record, and in particular with k
sources the URL is processed and recorded k times, not once. -/
theorem c1_amended_once_per_task_group (render : Nat → RenderOutcome) (rec : PageRecord)
    (links : List String) (url : String) (st : CrawlSt)
    (hr : render 0 = .ok rec links)
    (hproc : st.processingUrls = [])
    (hnd : (st.groups.map (fun g => g.name)).Nodup)
    (hnone : ∀ g ∈ st.groups, assocGet g.pages (getNormalizedUrl url) = none) :
    ∀ g2 ∈ (processUrlQueueStep render url st).groups,
      assocGet g2.pages (getNormalizedUrl url)
        = some (successRecord (getNormalizedUrl url) rec) := by
  intro g2 hg2
  have hkey := foldNames_records render rec links url hr
    (st.groups.map (fun g => g.name))
    { st with pendingUrls := st.pendingUrls.filter (fun kv => !(kv.1 == url)) }
    hproc hnd
    (fun nm _ g hf => hnone g (List.mem_of_find?_eq_some hf))
  have hnames : ((processUrlQueueStep render url st).groups.map (fun g => g.name))
      = st.groups.map (fun g => g.name) := by
    unfold processUrlQueueStep
    exact fold_processUrl_names render url (st.groups.map (fun g => g.name))
      { st with pendingUrls := st.pendingUrls.filter (fun kv => !(kv.1 == url)) }
  have hfg : findGroup (processUrlQueueStep render url st).groups g2.name = some g2 :=
    findGroup_self_of_nodup _ (by rw [hnames]; exact hnd) g2 hg2
  have hmemname : g2.name ∈ st.groups.map (fun g => g.name) := by
    rw [← hnames]
    exact List.mem_map_of_mem (fun g => g.name) hg2
  exact hkey.1 g2.name hmemname g2 hfg

/-- Witness for c1_amended_once_per_task_group on a one-source state. -/
theorem c1_amended_witness :
    assocGet (([("http://a.test/page", (⟨"T", "C"⟩ : PageRecord))])
        : List (String × PageRecord)) (getNormalizedUrl "http://a.test/page")
      = some (successRecord (getNormalizedUrl "http://a.test/page") ⟨"T", "C"⟩) := by
  have h := c1_amended_once_per_task_group (fun _ => RenderOutcome.ok ⟨"T", "C"⟩ [])
    ⟨"T", "C"⟩ [] "http://a.test/page"
    ⟨[⟨"A", "http://a.test/", [], "pending", [], []⟩], [], [], 0, []⟩
    rfl rfl (by decide) (by decide)
  exact h ⟨"A", "http://a.test/",
      [("http://a.test/page", ⟨"T", "C"⟩)], "pending", [], []⟩
    (by exact List.mem_cons_self _ _)

/-! ### C9: error page after exhausted retries -/

/-- C9 counterexample: after three failed attempts the synthetic error page's
title is "爬取失败: " followed by the LAST PATH SEGMENT of the url
(`url.split('/').pop() || url`), not by the url itself — for
https://x.test/a/b the recorded title is "爬取失败: b", which differs from a
"crawl failed: <url>" title under either reading. -/
theorem c9_error_title_uses_last_segment :
    (let st9 : CrawlSt := ⟨[⟨"docs", "https://x.test/", [], "pending", [], []⟩],
                           [], [], 0, []⟩
     (processUrl (fun _ => RenderOutcome.fail "boom") "https://x.test/a/b" "docs" st9).saveLog
       = [("docs", "https://x.test/a/b",
           ⟨"爬取失败: b", "处理此页面时发生错误: boom"⟩)]) ∧
    ("爬取失败: b" : String) ≠ "crawl failed: https://x.test/a/b" ∧
    ("爬取失败: b" : String) ≠ "爬取失败: https://x.test/a/b" := by
  exact ⟨by decide, by decide, by decide⟩

/-- C9 amended: when all three attempts fail, processUrl records the
synthetic error page (title "爬取失败: " + last path segment of the url,
content "处理此页面时发生错误: " + last error message) in the task group's
pages under the normalized URL and passes it to savePage; afterwards any
further processUrl for that group skips the URL, and the link-enqueue guard
(line 834) refuses to re-insert it into pendingUrls once its owning group's
pages contain it, so it is not dispatched again within the run. -/
theorem c9_amended_error_record (render : Nat → RenderOutcome) (m0 m1 m2 : String)
    (url nm : String) (st : CrawlSt) (g : TaskGroup)
    (h0 : render 0 = .fail m0) (h1 : render 1 = .fail m1) (h2 : render 2 = .fail m2)
    (hg : findGroup st.groups nm = some g)
    (hnc : st.processingUrls.contains (getNormalizedUrl url) = false)
    (hnp : assocHas g.pages (getNormalizedUrl url) = false) :
    groupPage (processUrl render url nm st) nm (getNormalizedUrl url)
        = some (errorPage url m2) ∧
    (processUrl render url nm st).saveLog
        = st.saveLog ++ [(nm, getNormalizedUrl url, errorPage url m2)] ∧
    (∀ render2, processUrl render2 url nm (processUrl render url nm st)
        = processUrl render url nm st) ∧
    (∀ (groups2 : List TaskGroup) (proc2 : List String)
        (pend : List (String × PendingEntry)) (l : String) (u2 : UrlParts) (g2 : TaskGroup),
      getNormalizedUrl l = getNormalizedUrl url →
      parseUrlChars (getNormalizedUrl url).data = some u2 →
      findGroupByHost u2.hostname groups2 = some g2 →
      assocHas g2.pages (getNormalizedUrl url) = true →
      enqueueStep groups2 proc2 pend l = pend) := by
  have hfacts := processUrl_fail3_facts render m0 m1 m2 url nm st g h0 h1 h2 hg hnc hnp
  refine ⟨?_, hfacts.2.2, ?_, ?_⟩
  · unfold groupPage
    rw [hfacts.1, findGroup_pagesupd_self st.groups nm _ _, hg, Option.map_some']
    show assocGet (assocSet g.pages (getNormalizedUrl url) (errorPage url m2))
      (getNormalizedUrl url) = some (errorPage url m2)
    exact assocGet_set_self g.pages (getNormalizedUrl url) _
  · intro render2
    apply processUrl_skip render2 url nm _
      { g with pages := assocSet g.pages (getNormalizedUrl url) (errorPage url m2) }
    · rw [hfacts.1, findGroup_pagesupd_self st.groups nm _ _, hg, Option.map_some']
    · show (assocGet (assocSet g.pages (getNormalizedUrl url) (errorPage url m2))
        (getNormalizedUrl url)).isSome = true
      rw [assocGet_set_self]
      rfl
  · intro groups2 proc2 pend l u2 g2 hl hparse howner hhas
    unfold enqueueStep
    rw [hl]
    cases hic : isComponentLink groups2 (getNormalizedUrl url) with
    | false => simp [hic]
    | true =>
      simp only [hic, if_true, hparse, howner]
      by_cases hex : (!g2.excludePatterns.isEmpty && g2.excludePatterns.any
          (fun p => p (stripSlash (u2.pathname.takeWhile (· != '#'))))) = true
      · simp [hex]
      · simp [hex, hhas]

/-- Witness for c9_amended_error_record on a concrete state and url. -/
theorem c9_amended_witness :
    groupPage (processUrl (fun _ => RenderOutcome.fail "netfail") "https://x.test/c/d" "docs"
        ⟨[⟨"docs", "https://x.test/", [], "pending", [], []⟩], [], [], 0, []⟩) "docs"
        (getNormalizedUrl "https://x.test/c/d")
      = some (errorPage "https://x.test/c/d" "netfail") :=
  (c9_amended_error_record (fun _ => RenderOutcome.fail "netfail") "netfail" "netfail" "netfail"
    "https://x.test/c/d" "docs"
    ⟨[⟨"docs", "https://x.test/", [], "pending", [], []⟩], [], [], 0, []⟩
    ⟨"docs", "https://x.test/", [], "pending", [], []⟩
    rfl rfl rfl rfl rfl rfl).1

/-! ### C3: the lock file never survives a flush attempt -/

theorem assocGet_remove_self {α : Type} (ps : List (String × α)) (k : String) :
    assocGet (assocRemove ps k) k = none := by
  induction ps with
  | nil => rfl
  | cons a t ih =>
    cases h1 : (a.1 == k) with
    | true => simpa [assocRemove, h1] using ih
    | false =>
      simp only [assocRemove, List.filter_cons, h1, Bool.not_false, if_true]
      rw [assocGet_cons, h1]
      simpa [assocRemove] using ih

theorem fsHas_remove_self (p : String) (st : FsState) : fsHas (fsRemove p st) p = false := by
  unfold fsHas fsRemove assocHas
  rw [assocGet_remove_self]
  rfl

/-- C3: after every call of _performActualSave — lock acquisition refused or
failed, read/parse errors, merge skipped, serialization fallbacks, temp
write or rename failure, or full success — the sibling `<store>.lock` file
does not exist: the finally at line 479 unconditionally unlinks it. -/
theorem c3_lock_removed_always (env : SaveEnv) (sourceName srcUrl outputPath : String)
    (pend : List (String × PageS)) (st : FsState) :
    fsHas (performActualSave env sourceName srcUrl outputPath pend st).1
      (outputPath ++ ".lock") = false := by
  unfold performActualSave
  exact fsHas_remove_self (outputPath ++ ".lock") _

/-! ### C10: savePage never rejects -/

/-- C10: the promise returned by savePage resolves on every input — for an
empty sourceName, for an absorbed (already-scheduled) call, and for every
combination of flush, retry and emergency-backup failures; a caller awaiting
savePage can never observe a persistence failure through the returned
promise. -/
theorem c10_savePage_always_resolves (env : SavePageEnv) (sourceName : String)
    (alreadyScheduled : Bool) :
    promiseResolves (savePage env sourceName alreadyScheduled) = true := by
  rcases env with ⟨f, r, b⟩
  cases h1 : (sourceName == "") <;> cases alreadyScheduled <;>
    cases f <;> cases r <;> cases b <;>
    simp [savePage, promiseResolves, h1]

end McpDoc
